import Mathlib

/-!
Verification development for the dual-asset (VAR/SKA) protocol core of the
monetarium node.  The Go source is shallowly embedded: machine integers are
modelled as `Int`/`Nat` with explicit wrapping where overflow matters
(`wrap64` for `int64`, `% 65536` for `uint16`), `math/big.Int` values are
`Int` (`big.Int.Div` is Euclidean division, Lean's `/` on `Int`),
Go `nil`-able pointers are `Option`, byte slices are `List Nat`, and Go maps
are association lists with lookup/insert/erase helpers.  Fallible functions
return `Except String`.
-/

set_option maxHeartbeats 1000000

namespace Monetarium

/-- Equality of `Except` values is decidable; needed to evaluate the
embedded fallible functions at concrete inputs. -/
instance {ε α : Type} [DecidableEq ε] [DecidableEq α] : DecidableEq (Except ε α) :=
  fun x y =>
    match x, y with
    | .ok a, .ok b =>
      if h : a = b then isTrue (by rw [h]) else isFalse (by simp [h])
    | .error a, .error b =>
      if h : a = b then isTrue (by rw [h]) else isFalse (by simp [h])
    | .ok _, .error _ => isFalse (by simp)
    | .error _, .ok _ => isFalse (by simp)

/-- Structural-recursion helper for `natToBytesBE`; the first argument is
fuel bounding the number of digits (any fuel at least the value works). -/
def natToBytesBEAux : Nat → Nat → List Nat
  | 0, _ => []
  | fuel + 1, n => if n = 0 then [] else natToBytesBEAux fuel (n / 256) ++ [n % 256]

/-- Bytes of a `big.Int` magnitude, most significant first (`big.Int.Bytes`):
zero encodes to the empty slice, otherwise no leading zero byte. -/
def natToBytesBE (n : Nat) : List Nat :=
  natToBytesBEAux n n

/-- Big-endian interpretation of a byte slice as an unsigned integer
(`big.Int.SetBytes`). -/
def bytesToNatBE (bs : List Nat) : Nat :=
  bs.foldl (fun acc b => acc * 256 + b) 0

/-- Little-endian interpretation of a byte slice as an unsigned integer
(`binary.LittleEndian.Uint32` / `Uint64` on slices of the right length). -/
def bytesToNatLE (bs : List Nat) : Nat :=
  bs.foldr (fun b acc => acc * 256 + b) 0

/-- Go `uint32` little-endian encoding (`binary.LittleEndian.PutUint32`). -/
def uint32LEBytes (n : Nat) : List Nat :=
  [n % 256, n / 256 % 256, n / 65536 % 256, n / 16777216 % 256]

/-- Two's-complement reinterpretation of a `uint64` bit pattern as a Go
`int64` (`int64(binary.LittleEndian.Uint64(v))`). -/
def int64OfUint64 (n : Nat) : Int :=
  if n < 2 ^ 63 then (n : Int) else (n : Int) - 2 ^ 64

/-- Wrapping of an unbounded integer into the Go `int64` range, modelling
two's-complement overflow of `int64` addition. -/
def wrap64 (n : Int) : Int :=
  (n + 2 ^ 63) % 2 ^ 64 - 2 ^ 63

/-- Truncating Go float-to-int64 conversion applied to an exact rational.
Go's `int64(f)` truncates toward zero. -/
def truncToInt (q : ℚ) : Int :=
  q.num.tdiv q.den

/-! ### Association-list model of Go maps

Go `map[K]V` values are modelled as association lists with at most one
binding per key; `mapInsert` replaces any previous binding and `mapErase`
removes it, so the usual pointwise lookup laws hold unconditionally. -/

/-- Lookup in a Go map (`v, ok := m[k]` with `ok` as `Option`). -/
def mapLookup (m : List (Nat × α)) (k : Nat) : Option α :=
  (m.find? (fun p => p.1 = k)).map (·.2)

/-- Erase a key from a Go map (`delete(m, k)`). -/
def mapErase (m : List (Nat × α)) (k : Nat) : List (Nat × α) :=
  m.filter (fun p => ¬ p.1 = k)

/-- Insert/replace a binding in a Go map (`m[k] = v`). -/
def mapInsert (m : List (Nat × α)) (k : Nat) (v : α) : List (Nat × α) :=
  (k, v) :: mapErase m k

/-! ### CoinType registry

Modelled from the spec: the `cointype` package itself is not under `src/`
(only its tests and callers are).  Per the spec, a coin type is a single
byte, `0` is VAR, `1..255` are SKA, and
`MaxVARAtoms = 21·10^14` (21 million coins × 10^8 atoms/coin). -/

/-- Modelled from the spec: `cointype.CoinTypeVAR` — coin type `0` is VAR. -/
def CoinTypeVAR : Nat := 0

/-- Modelled from the spec: `cointype.CoinType.IsVAR` — true exactly for
coin type `0`. -/
def isVAR (ct : Nat) : Bool := ct == 0

/-- Modelled from the spec: `cointype.CoinType.IsSKA` — true for coin types
`1..255` (every non-VAR byte). -/
def isSKA (ct : Nat) : Bool := ct != 0

/-- Modelled from the spec: `cointype.MaxVARAtoms = 21·10^14`. -/
def MaxVARAtoms : Int := 21 * 10 ^ 14

/-! ### SKAAmount serialization (cointype package, `src/unnamed/part_006`)

`SKAAmount` wraps a `*big.Int`; a `nil` value behaves as zero everywhere,
so the amount is modelled directly as `Int`. -/

/-- `SKAAmount.Bytes`: big-endian magnitude of the absolute value; zero
yields the empty slice. -/
def skaAmountBytes (a : Int) : List Nat :=
  if a = 0 then [] else natToBytesBE a.natAbs

/-- `SKAAmount.SignedBytes`: a sign byte (0 = positive/zero, 1 = negative)
followed by the big-endian magnitude; zero is the single byte 0. -/
def skaAmountSignedBytes (a : Int) : List Nat :=
  if a = 0 then [0]
  else (if a < 0 then 1 else 0) :: natToBytesBE a.natAbs

/-- `SKAAmountFromBytes`: the bytes are interpreted as an unsigned
big-endian integer; an empty slice is zero. -/
def skaAmountFromBytes (b : List Nat) : Int :=
  if b = [] then 0 else (bytesToNatBE b : Int)

/-- `SKAAmountFromSignedBytes`: empty or single-byte input is zero;
otherwise the first byte is the sign (1 = negative) and the rest the
big-endian magnitude. -/
def skaAmountFromSignedBytes (b : List Nat) : Int :=
  if b.length = 0 then 0
  else if b.length = 1 then 0
  else
    let sign := b.headD 0
    let magnitude : Int := (bytesToNatBE b.tail : Int)
    if sign = 1 then -magnitude else magnitude

/-! ### Fee splitter (`CalcFeeSplitByCoinType`, wire package)

`FeesByType` is `map[cointype.CoinType]*big.Int`, modelled as an
association list.  The proportions are Go `uint16` values, so the sum
`workProportion + stakeProportion` wraps modulo 2^16 before the conversion
`int64(...)`. -/

/-- The per-coin-type body of the `CalcFeeSplitByCoinType` loop: Euclidean
big-int division (`big.Int.Div`) of the proportional shares, with the
rounding remainder added to the miner share. -/
def splitOneFee (workProportion stakeProportion : Nat) (adjustedTotal totalFee : Int) :
    Int × Int :=
  let minerFee := totalFee * (workProportion : Int) / adjustedTotal
  let stakerFee := totalFee * (stakeProportion : Int) / adjustedTotal
  let distributed := minerFee + stakerFee
  let remainder := totalFee - distributed
  (minerFee + remainder, stakerFee)

/-- `wire.CalcFeeSplitByCoinType`: entries with `totalFee ≤ 0` are skipped,
each remaining fee total is split proportionally, and only strictly
positive shares are stored in the result maps. -/
def calcFeeSplitByCoinType (feesByType : List (Nat × Int))
    (workProportion stakeProportion : Nat) :
    List (Nat × Int) × List (Nat × Int) :=
  let adjustedTotal : Int := (((workProportion + stakeProportion) % 65536 : Nat) : Int)
  if adjustedTotal = 0 then ([], [])
  else
    let minerFees := feesByType.filterMap (fun p =>
      if p.2 ≤ 0 then none
      else
        let f := splitOneFee workProportion stakeProportion adjustedTotal p.2
        if 0 < f.1 then some (p.1, f.1) else none)
    let stakerFees := feesByType.filterMap (fun p =>
      if p.2 ≤ 0 then none
      else
        let f := splitOneFee workProportion stakeProportion adjustedTotal p.2
        if 0 < f.2 then some (p.1, f.2) else none)
    (minerFees, stakerFees)

/-! ### Transaction model (wire package) -/

/-- `wire.OutPoint`: 32-byte hash, `uint32` index, `int8` tree. -/
structure OutPoint where
  hash : List Nat
  index : Nat
  tree : Int
deriving DecidableEq, Repr

/-- `wire.TxIn` (prefix and witness fields). -/
structure TxIn where
  previousOutPoint : OutPoint
  sequence : Nat
  valueIn : Int
  skaValueIn : Option Int
  blockHeight : Nat
  blockIndex : Nat
  signatureScript : List Nat
deriving DecidableEq, Repr

/-- `wire.TxOut`: `Value` is the `int64` VAR amount, `SKAValue` the
optional `*big.Int` SKA amount. -/
structure TxOut where
  value : Int
  skaValue : Option Int
  coinType : Nat
  version : Nat
  pkScript : List Nat
deriving DecidableEq, Repr

/-- `wire.MsgTx` (the serialization type and cached hash are irrelevant to
the embedded functions and omitted). -/
structure MsgTx where
  version : Nat
  txIn : List TxIn
  txOut : List TxOut
  lockTime : Nat
  expiry : Nat
deriving DecidableEq, Repr

/-- `wire.TxOut.ValidateCoinTypeFields`: VAR outputs must have no
`SKAValue`; SKA outputs must have `Value = 0` and a present, non-negative
`SKAValue`. -/
def validateCoinTypeFields (t : TxOut) : Except String Unit :=
  if isVAR t.coinType then
    if t.skaValue ≠ none then .error "VAR output has SKAValue set"
    else .ok ()
  else
    if t.value ≠ 0 then .error "SKA output has nonzero Value"
    else if t.skaValue = none then .error "SKA output has nil SKAValue"
    else if t.skaValue.getD 0 < 0 then .error "SKA output has negative SKAValue"
    else .ok ()

/-! ### Transaction sanity (`standalone.CheckTransactionSanity`,
`src/unnamed/part_009`) -/

/-- The error kinds raised by `CheckTransactionSanity`. -/
inductive RuleErr where
  | errNoTxInputs
  | errNoTxOutputs
  | errTxTooBig
  | errBadTxOutValue
  | errDuplicateTxInputs
deriving DecidableEq, Repr

/-- The output loop of `CheckTransactionSanity`: accumulates the VAR total
in wrapping `int64` arithmetic and the SKA total in `big.Int`, raising
`ErrBadTxOutValue` exactly where the source does. -/
def checkTxOutputs : List TxOut → Int → Int → Except RuleErr Unit
  | [], _, _ => .ok ()
  | txOut :: rest, totalVARAtoms, totalSKAAtoms =>
    -- coinType := cointype.CoinType(uint8(txOut.CoinType)); isValidCoinType
    -- accepts every byte.
    let coinType := txOut.coinType % 256
    if ¬ (validateCoinTypeFields txOut = .ok ()) then .error .errBadTxOutValue
    else
      if coinType = CoinTypeVAR then
        let atoms := txOut.value
        if atoms < 0 then .error .errBadTxOutValue
        else if atoms > MaxVARAtoms then .error .errBadTxOutValue
        else
          let totalVARAtoms' := wrap64 (totalVARAtoms + atoms)
          if totalVARAtoms' < 0 then .error .errBadTxOutValue
          else if totalVARAtoms' > MaxVARAtoms then .error .errBadTxOutValue
          else checkTxOutputs rest totalVARAtoms' totalSKAAtoms
      else
        let skaAmount := txOut.skaValue.getD 0
        if skaAmount < 0 then .error .errBadTxOutValue
        else
          let totalSKAAtoms' := totalSKAAtoms + skaAmount
          if totalSKAAtoms' < 0 then .error .errBadTxOutValue
          else checkTxOutputs rest totalVARAtoms totalSKAAtoms'

/-- The duplicate-input scan of `CheckTransactionSanity` (the Go set is a
`map[wire.OutPoint]struct` used only for membership). -/
def checkDuplicateTxIn : List TxIn → List OutPoint → Except RuleErr Unit
  | [], _ => .ok ()
  | txIn :: rest, seen =>
    if txIn.previousOutPoint ∈ seen then .error .errDuplicateTxInputs
    else checkDuplicateTxIn rest (txIn.previousOutPoint :: seen)

/-- `standalone.CheckTransactionSanity`.  The serialized size
(`uint64(tx.SerializeSize())`) is passed as an explicit argument. -/
def checkTransactionSanity (tx : MsgTx) (serializedTxSize maxTxSize : Nat) :
    Except RuleErr Unit :=
  if tx.txIn.length = 0 then .error .errNoTxInputs
  else if tx.txOut.length = 0 then .error .errNoTxOutputs
  else if serializedTxSize > maxTxSize then .error .errTxTooBig
  else
    match checkTxOutputs tx.txOut 0 0 with
    | .error e => .error e
    | .ok _ => checkDuplicateTxIn tx.txIn []

/-! ### SKA emission detection
(`blockchain.IsSKAEmissionTransaction`,
`src/internal/blockchain/skaemission.go`) -/

/-- The all-zero 32-byte hash (`chainhash.Hash` zero value). -/
def zeroHash : List Nat := List.replicate 32 0

/-- Modelled from the spec: `wire.CoinTypeSKA`, the SKA coin-type constant
of the legacy wire package used by `skaemission.go` (not under `src/`);
its tests use it as the single non-VAR coin type, so it is coin type 1. -/
def coinTypeSKA : Nat := 1

/-- `blockchain.IsSKAEmissionTransaction`: exactly one input whose
previous outpoint has the zero hash and index `0xffffffff` (the tree is
not inspected), a signature script of length at least 4 whose LAST three
bytes are `"SKA"`, at least one output, and every output of coin type
`wire.CoinTypeSKA`. -/
def isSKAEmissionTransaction (tx : MsgTx) : Bool :=
  match tx.txIn with
  | [txIn] =>
    if tx.txOut.length = 0 then false
    else
      let prevOut := txIn.previousOutPoint
      if ¬ (prevOut.hash = zeroHash ∧ prevOut.index = 4294967295) then false
      else
        let sigScript := txIn.signatureScript
        if sigScript.length < 4 then false
        else if ¬ (sigScript.drop (sigScript.length - 3) = [0x53, 0x4b, 0x41]) then false
        else tx.txOut.all (fun txOut => txOut.coinType == coinTypeSKA)
  | _ => false

/-! ### Primary coin type (`blockalloc.GetTransactionCoinType`,
`src/internal/blockalloc/transaction.go`) -/

/-- The scan loop of `GetTransactionCoinType`: the first output with an
actual positive amount (`SKAValue` present and positive for SKA outputs,
`Value` positive for VAR outputs) determines the coin type. -/
def findPositiveOut : List TxOut → Option Nat
  | [] => none
  | txOut :: rest =>
    if isSKA txOut.coinType then
      match txOut.skaValue with
      | some v => if 0 < v then some txOut.coinType else findPositiveOut rest
      | none => findPositiveOut rest
    else
      if 0 < txOut.value then some txOut.coinType else findPositiveOut rest

/-- `blockalloc.GetTransactionCoinType`: VAR for transactions with no
outputs; otherwise the coin type of the first output with a positive
amount, falling back to the first output's coin type. -/
def getTransactionCoinType (tx : MsgTx) : Nat :=
  match tx.txOut with
  | [] => CoinTypeVAR
  | first :: _ => (findPositiveOut tx.txOut).getD first.coinType

/-! ### SKA burn ledger (`blockchain.SKABurnState`,
`src/internal/blockchain/validate_dual_test.go` appended source)

The in-memory ledger `burned : map[cointype.CoinType]*big.Int` is an
association list `List (Nat × Int)`; the database bucket is a list of
key/value byte-slice pairs in `ForEach` order. -/

/-- `blockchain.SKABurnRecord`. -/
structure SKABurnRecord where
  coinType : Nat
  amount : Int
  height : Int
  txHash : List Nat
  outIndex : Nat
deriving DecidableEq, Repr

/-- One iteration of the `ConnectSKABurnsTx` loop: add the burn amount to
the existing per-coin total, or create the entry. -/
def connectBurn1 (burned : List (Nat × Int)) (burn : SKABurnRecord) : List (Nat × Int) :=
  match mapLookup burned burn.coinType with
  | some existing => mapInsert burned burn.coinType (existing + burn.amount)
  | none => mapInsert burned burn.coinType burn.amount

/-- The in-memory effect of `ConnectSKABurnsTx` (the persistence step
`saveWithTx` is the derived function `savedBurnValue`). -/
def connectSKABurns (burned : List (Nat × Int)) (burns : List SKABurnRecord) :
    List (Nat × Int) :=
  burns.foldl connectBurn1 burned

/-- One iteration of the `DisconnectSKABurnsTx` loop: subtract the burn
amount; remove the entry when the result reaches zero or below; a missing
entry is left untouched. -/
def disconnectBurn1 (burned : List (Nat × Int)) (burn : SKABurnRecord) : List (Nat × Int) :=
  match mapLookup burned burn.coinType with
  | some existing =>
    let result := existing - burn.amount
    if result ≤ 0 then mapErase burned burn.coinType
    else mapInsert burned burn.coinType result
  | none => burned

/-- The in-memory effect of `DisconnectSKABurnsTx`. -/
def disconnectSKABurns (burned : List (Nat × Int)) (burns : List SKABurnRecord) :
    List (Nat × Int) :=
  burns.foldl disconnectBurn1 burned

/-- The per-coin bucket contents written by `saveWithTx`: the bucket is
deleted and recreated, so after a save the value stored under the 1-byte
key `ct` is exactly `amount.Bytes()` (big-endian magnitude) when the
in-memory total is present and non-zero, and absent otherwise. -/
def savedBurnValue (burned : List (Nat × Int)) (ct : Nat) : Option (List Nat) :=
  match mapLookup burned ct with
  | some amount => if amount = 0 then none else some (natToBytesBE amount.natAbs)
  | none => none

/-- `skaBurnStateFormatVersion = 2`. -/
def skaBurnStateFormatVersion : Nat := 2

/-- The bytes of the meta key `"__meta_version__"`. -/
def skaBurnStateVersionKeyBytes : List Nat :=
  [95, 95, 109, 101, 116, 97, 95, 118, 101, 114, 115, 105, 111, 110, 95, 95]

/-- `Bucket.Get` on the modelled key/value bucket. -/
def bucketGet (bucket : List (List Nat × List Nat)) (k : List Nat) : Option (List Nat) :=
  (bucket.find? (fun p => p.1 = k)).map (·.2)

/-- The per-entry value decode inside `SKABurnState.load`: version 1 reads
a fixed 8-byte little-endian `int64`; any other (already version-checked)
version treats the whole non-empty value as a big-endian `big.Int`
magnitude (`new(big.Int).SetBytes(v)`). -/
def loadBurnValue (version : Nat) (v : List Nat) : Except String Int :=
  if version = 1 then
    if v.length ≠ 8 then .error "invalid value length in v1 format"
    else .ok (int64OfUint64 (bytesToNatLE v))
  else
    if v.length < 1 then .error "invalid value length in v2 format"
    else .ok (bytesToNatBE v : Int)

/-- The `ForEach` body of `SKABurnState.load`: skip the meta key, reject
keys that are not a single byte, reject coin type 0, decode the value. -/
def loadBurnEntry (version : Nat) (burned : List (Nat × Int)) (k v : List Nat) :
    Except String (List (Nat × Int)) :=
  if k = skaBurnStateVersionKeyBytes then .ok burned
  else if k.length ≠ 1 then .error "invalid key length in SKA burn state bucket"
  else if k.headD 0 = 0 then .error "invalid coin type 0 found in SKA burn state"
  else
    match loadBurnValue version v with
    | .error e => .error e
    | .ok amount => .ok (mapInsert burned (k.headD 0) amount)

/-- `SKABurnState.load`: a missing bucket is an empty ledger; a stored
version value must be exactly 4 bytes (little-endian `uint32`), a missing
one means version 1; versions above `skaBurnStateFormatVersion` are
rejected; then every entry is decoded by `loadBurnEntry`. -/
def skaBurnStateLoad (bucket? : Option (List (List Nat × List Nat))) :
    Except String (List (Nat × Int)) :=
  match bucket? with
  | none => .ok []
  | some bucket =>
    let versionE : Except String Nat :=
      match bucketGet bucket skaBurnStateVersionKeyBytes with
      | some versionBytes =>
        if versionBytes.length ≠ 4 then .error "invalid SKA burn state version encoding"
        else .ok (bytesToNatLE versionBytes)
      | none => .ok 1
    match versionE with
    | .error e => .error e
    | .ok version =>
      if version > skaBurnStateFormatVersion then
        .error "unsupported SKA burn state version"
      else
        bucket.foldlM (fun burned kv => loadBurnEntry version burned kv.1 kv.2) []

/-- Follows the spec's words, for comparison with `loadBurnValue`: a
version-2 per-coin value read as a 1-byte-length-prefixed big-endian
big-integer magnitude. -/
def specV2LengthTaggedDecode (v : List Nat) : Option Int :=
  match v with
  | [] => none
  | len :: rest => if rest.length = len then some (bytesToNatBE rest : Int) else none

/-! ### Fee engine (`fees.CoinTypeFeeCalculator`,
`src/internal/fees/feecalc.go`)

Go `float64` fields and literals are modelled as exact rationals; the
source converts every multiplier to fixed-point `int64(m * 1000)` before
using it in `big.Int` arithmetic (`truncToInt (m * 1000)` here), and the
claims proved below do not depend on float rounding. -/

/-- `fees.CoinTypeFeeRate`. -/
structure CoinTypeFeeRate where
  minRelayFee : Int
  dynamicFeeMultiplier : ℚ
  maxFeeRate : Int
  skaMinRelayFee : Option Int
  skaMaxFeeRate : Option Int
deriving DecidableEq, Repr

/-- `fees.UtilizationStats` (the fields the embedded functions read). -/
structure UtilizationStats where
  pendingTxCount : Int
  pendingTxSize : Int
  blockSpaceUsed : ℚ
  recentTxFees : List Int
deriving DecidableEq, Repr

/-- `fees.CoinTypeFeeCalculator` (the two maps guarded by its lock). -/
structure CoinTypeFeeCalculator where
  feeRates : List (Nat × CoinTypeFeeRate)
  utilizationStats : List (Nat × UtilizationStats)
deriving DecidableEq, Repr

/-- `chaincfg.SKACoinConfig` (the fields read by the fee engine). -/
structure SKACoinConfig where
  active : Bool
  emissionHeight : Int
  maxSupply : Int
  minRelayTxFee : Option Int
  maxFeeMultiplier : Int
deriving DecidableEq, Repr

/-- `fees.getDefaultSKAFeeRate`: a missing or non-positive configured
minimum falls back to 4·10^18 atoms/KB; a non-positive multiplier falls
back to 2500; the maximum is `min × multiplier` capped at `MaxSupply`. -/
def getDefaultSKAFeeRate (config : SKACoinConfig) : CoinTypeFeeRate :=
  let skaMinFeeBig : Int :=
    match config.minRelayTxFee with
    | some f => if f ≤ 0 then 4000000000000000000 else f
    | none => 4000000000000000000
  let multiplier : Int :=
    if config.maxFeeMultiplier ≤ 0 then 2500 else config.maxFeeMultiplier
  let skaMaxFee := skaMinFeeBig * multiplier
  let skaMaxFee := if config.maxSupply < skaMaxFee then config.maxSupply else skaMaxFee
  { minRelayFee := 0
    dynamicFeeMultiplier := 1
    maxFeeRate := 0
    skaMinRelayFee := some skaMinFeeBig
    skaMaxFeeRate := some skaMaxFee }

/-- `fees.CoinTypeFeeCalculator.calculateConfirmationMultiplier`. -/
def calculateConfirmationMultiplier (targetConfirmations : Int)
    (stats : UtilizationStats) : ℚ :=
  let multiplier : ℚ :=
    if targetConfirmations ≤ 1 then 2
    else if targetConfirmations ≤ 3 then 3 / 2
    else if targetConfirmations ≤ 6 then 6 / 5
    else 1
  if stats.blockSpaceUsed > 4 / 5 then multiplier * (3 / 2)
  else if stats.blockSpaceUsed > 3 / 5 then multiplier * (6 / 5)
  else multiplier

/-- `fees.CoinTypeFeeCalculator.CalculateMinFee`.  `none` marks the state
in which the Go code would dereference a nil fee-rate pointer (both the
requested coin type and VAR missing), which cannot happen after
construction. -/
def calculateMinFee (fc : CoinTypeFeeCalculator) (serializedSize : Int)
    (coinType : Nat) : Option Int :=
  let feeRate? :=
    match mapLookup fc.feeRates coinType with
    | some fr => some fr
    | none => mapLookup fc.feeRates CoinTypeVAR
  match feeRate? with
  | none => none
  | some feeRate =>
    if isSKA coinType ∧ feeRate.skaMinRelayFee ≠ none then
      -- SKA path: big.Int arithmetic with Euclidean division.
      let skaMin := feeRate.skaMinRelayFee.getD 0
      let baseFee := serializedSize * skaMin / 1000
      let baseFee :=
        if feeRate.dynamicFeeMultiplier ≠ 1 then
          baseFee * truncToInt (feeRate.dynamicFeeMultiplier * 1000) / 1000
        else baseFee
      let baseFee := if baseFee = 0 ∧ 0 < skaMin then skaMin else baseFee
      some baseFee
    else
      -- VAR path: wrapping int64 multiply, truncating int64 division,
      -- float64 multiplier.
      let baseFee := (wrap64 (serializedSize * feeRate.minRelayFee)).tdiv 1000
      let dynamicFee : ℚ := (baseFee : ℚ) * feeRate.dynamicFeeMultiplier
      let dynamicFee :=
        if dynamicFee = 0 ∧ 0 < feeRate.minRelayFee then (feeRate.minRelayFee : ℚ)
        else dynamicFee
      let maxFee := (wrap64 (serializedSize * feeRate.maxFeeRate)).tdiv 1000
      let dynamicFee :=
        if dynamicFee > (maxFee : ℚ) ∧ 0 < maxFee then (maxFee : ℚ) else dynamicFee
      let finalFee := truncToInt dynamicFee
      let finalFee := if finalFee < 0 ∨ finalFee > MaxVARAtoms then MaxVARAtoms else finalFee
      some finalFee

/-- `fees.CoinTypeFeeCalculator.EstimateFeeRate`: unknown coin types are
rejected with an error; otherwise the minimum relay rate is scaled by the
fixed-point dynamic and confirmation multipliers and clamped into the
configured bounds. -/
def estimateFeeRate (fc : CoinTypeFeeCalculator) (coinType : Nat)
    (targetConfirmations : Int) : Except String Int :=
  match mapLookup fc.feeRates coinType with
  | none => .error "unsupported coin type"
  | some feeRate =>
    let stats? := mapLookup fc.utilizationStats coinType
    let rates : Int × Option Int :=
      if isSKA coinType ∧ feeRate.skaMinRelayFee ≠ none then
        (feeRate.skaMinRelayFee.getD 0, feeRate.skaMaxFeeRate)
      else (feeRate.minRelayFee, some feeRate.maxFeeRate)
    let minFeeRate := rates.1
    let maxFeeRate? := rates.2
    let estimatedRate := minFeeRate
    let estimatedRate :=
      if feeRate.dynamicFeeMultiplier ≠ 1 then
        estimatedRate * truncToInt (feeRate.dynamicFeeMultiplier * 1000) / 1000
      else estimatedRate
    let estimatedRate :=
      match stats? with
      | some stats =>
        let confirmMultiplier := calculateConfirmationMultiplier targetConfirmations stats
        if confirmMultiplier ≠ 1 then
          estimatedRate * truncToInt (confirmMultiplier * 1000) / 1000
        else estimatedRate
      | none => estimatedRate
    let estimatedRate :=
      match maxFeeRate? with
      | some maxFeeRate =>
        if 0 < maxFeeRate ∧ maxFeeRate < estimatedRate then maxFeeRate else estimatedRate
      | none => estimatedRate
    let estimatedRate := if estimatedRate < minFeeRate then minFeeRate else estimatedRate
    .ok estimatedRate

/-! ### UTXO record codec (`blockchain.deserializeUtxoEntry`,
`src/internal/blockchain/utxoio.go`)

The VLQ and the domain-specific txout compression live in the repository's
`compress.go`, which is not under `src/`.  The VLQ is modelled from the
spec (a most-significant-byte-first base-128 encoding whose byte-wise
order equals numeric order, each continuation adding one); the compressed
txout codec, whose byte layout the spec leaves unspecified, is passed in
as an explicit `CompressCodec` record of functions, so every theorem about
`deserializeUtxoEntry` quantifies over (or concretely instantiates) it. -/

/-- Modelled from the spec: the accumulator loop of `deserializeVLQ` —
shift in 7 payload bits per byte, add one on every continuation byte,
stop at the first byte without the continuation bit; returns the value and
the number of bytes read. -/
def deserializeVLQAux : List Nat → Nat → Nat → Nat × Nat
  | [], n, size => (n, size)
  | val :: rest, n, size =>
    let n' := n * 128 + (val &&& 127)
    if val &&& 128 ≠ 128 then (n', size + 1)
    else deserializeVLQAux rest (n' + 1) (size + 1)

/-- Modelled from the spec: `deserializeVLQ` (value, bytes read). -/
def deserializeVLQ (serialized : List Nat) : Nat × Nat :=
  deserializeVLQAux serialized 0 0

/-- The txout-compression interface used by `deserializeUtxoEntry`:
`decodeCompressedTxOut` yields `(amount, scriptVersion, script,
bytesRead)` or `none` on error, `decodeCompressedScriptSize` yields the
encoded script size (negative on error), `decompressScript` expands a
compressed script, and the ticket helpers mirror
`isTicketSubmissionOutput` / `readDeserializeSizeOfMinimalOutputs`. -/
structure CompressCodec where
  decodeCompressedTxOut : List Nat → Option (Int × Nat × List Nat × Nat)
  decodeCompressedScriptSize : List Nat → Int
  decompressScript : List Nat → List Nat
  isTicketSubmissionOutput : Nat → Nat → Bool
  readMinimalOutputsSize : List Nat → Option Nat

/-- The V4-SKA probe inside `deserializeUtxoEntry` (the body of the
`potentialCoinType.IsSKA()` branch): the byte after the candidate coin
type is a plausible amount length (≤ 32), the amount fits, a script
version VLQ follows, and the compressed script size is non-negative and
in bounds. -/
def utxoSkaProbe (codec : CompressCodec) (serialized : List Nat) (nextOffset : Nat) :
    Bool :=
  let skaAmountLen := (serialized.drop nextOffset).headD 0
  if skaAmountLen ≤ 32 then
    let skaOffset := nextOffset + 1 + skaAmountLen
    if skaOffset < serialized.length then
      let sv := deserializeVLQ (serialized.drop skaOffset)
      let svBytesRead := sv.2
      if 0 < svBytesRead ∧ skaOffset + svBytesRead ≤ serialized.length then
        let scriptOffset := skaOffset + svBytesRead
        let scriptSize := codec.decodeCompressedScriptSize (serialized.drop scriptOffset)
        decide (0 ≤ scriptSize ∧ scriptOffset + scriptSize.toNat ≤ serialized.length)
      else false
    else false
  else false

/-- The format-detection step of `deserializeUtxoEntry` (lines following
the flags): returns `(coinType, offset, isV4Format)`.  A candidate coin
type in 1..255 is accepted as V4 SKA only when `utxoSkaProbe` succeeds; a
candidate of 0 is accepted as V4 VAR only when `decodeCompressedTxOut`
succeeds on the remainder; otherwise the entry is treated as legacy V3
with the offset left before the candidate. -/
def detectUtxoFormat (codec : CompressCodec) (serialized : List Nat)
    (offset nextOffset coinTypeVal : Nat) : Nat × Nat × Bool :=
  if nextOffset < serialized.length then
    let potentialCoinType := coinTypeVal % 256
    if isSKA potentialCoinType then
      if utxoSkaProbe codec serialized nextOffset then
        (potentialCoinType, nextOffset, true)
      else (CoinTypeVAR, offset, false)
    else if coinTypeVal = 0 then
      match codec.decodeCompressedTxOut (serialized.drop nextOffset) with
      | some _ => (CoinTypeVAR, nextOffset, true)
      | none => (CoinTypeVAR, offset, false)
    else (CoinTypeVAR, offset, false)
  else (CoinTypeVAR, offset, false)

/-- `blockchain.UtxoEntry` (decoded form; the packed flags are kept as
their three decoded components). -/
structure UtxoEntry where
  amount : Int
  skaAmount : Option Int
  pkScript : List Nat
  blockHeight : Nat
  blockIndex : Nat
  scriptVersion : Nat
  coinType : Nat
  isCoinBase : Bool
  hasExpiry : Bool
  txType : Nat
  ticketMinOuts : Option (List Nat)
deriving DecidableEq, Repr

/-- `blockchain.deserializeUtxoEntry`: block height, block index and flags
as VLQs, then the V3/V4 auto-detection of `detectUtxoFormat`, then the
amount/script decode on the detected path, then optional ticket minimal
outputs. -/
def deserializeUtxoEntry (codec : CompressCodec) (serialized : List Nat)
    (txOutIndex : Nat) : Except String UtxoEntry :=
  let bh := deserializeVLQ serialized
  let blockHeight := bh.1
  let offset1 := bh.2
  if offset1 ≥ serialized.length then .error "unexpected end of data after height"
  else
  let bi := deserializeVLQ (serialized.drop offset1)
  let blockIndex := bi.1
  let offset2 := offset1 + bi.2
  if offset2 ≥ serialized.length then .error "unexpected end of data after index"
  else
  let fl := deserializeVLQ (serialized.drop offset2)
  let flags := fl.1
  let offset3 := offset2 + fl.2
  if offset3 ≥ serialized.length then .error "unexpected end of data after flags"
  else
  -- decodeFlags: bit 0 coinbase, bit 1 expiry, bits 2-5 transaction type
  -- (flag layout documented at the top of utxoio.go).
  let isCoinBase := flags &&& 1 = 1
  let hasExpiry := flags &&& 2 = 2
  let txType := (flags >>> 2) &&& 15
  let ctv := deserializeVLQ (serialized.drop offset3)
  let coinTypeVal := ctv.1
  let nextOffset := offset3 + ctv.2
  let det := detectUtxoFormat codec serialized offset3 nextOffset coinTypeVal
  let coinType := det.1
  let offsetA := det.2.1
  let isV4Format := det.2.2
  let decoded : Except String (Int × Option Int × Nat × List Nat × Nat) :=
    if isV4Format ∧ isSKA coinType then
      -- V4 SKA: [length:1][amount bytes][script version VLQ][compressed script]
      if offsetA ≥ serialized.length then
        .error "unexpected end of data before SKA amount length"
      else
      let amountLen := (serialized.drop offsetA).headD 0
      let offsetB := offsetA + 1
      if offsetB + amountLen > serialized.length then
        .error "unexpected end of data during SKA amount"
      else
      let skaAmount : Int :=
        if 0 < amountLen then (bytesToNatBE ((serialized.drop offsetB).take amountLen) : Int)
        else 0
      let offsetC := offsetB + amountLen
      let sv := deserializeVLQ (serialized.drop offsetC)
      if sv.2 = 0 then .error "unexpected end of data during script version"
      else
      let scriptVersion := sv.1 % 65536
      let offsetD := offsetC + sv.2
      let scriptSize := codec.decodeCompressedScriptSize (serialized.drop offsetD)
      if scriptSize < 0 then .error "negative script size"
      else if offsetD + scriptSize.toNat > serialized.length then
        .error "unexpected end of data after script size"
      else
      let script := codec.decompressScript ((serialized.drop offsetD).take scriptSize.toNat)
      .ok (0, some skaAmount, scriptVersion, script, offsetD + scriptSize.toNat)
    else
      -- V3 or V4 VAR: the standard compressed txout
      match codec.decodeCompressedTxOut (serialized.drop offsetA) with
      | none => .error "unable to decode utxo"
      | some (amount, scriptVersion, script, bytesRead) =>
        .ok (amount, none, scriptVersion, script, offsetA + bytesRead)
  match decoded with
  | .error e => .error e
  | .ok (amount, skaAmount, scriptVersion, script, offsetE) =>
    let entry : UtxoEntry :=
      { amount := amount
        skaAmount := skaAmount
        pkScript := script
        blockHeight := blockHeight
        blockIndex := blockIndex
        scriptVersion := scriptVersion
        coinType := coinType
        isCoinBase := isCoinBase
        hasExpiry := hasExpiry
        txType := txType
        ticketMinOuts := none }
    if codec.isTicketSubmissionOutput txType txOutIndex then
      match codec.readMinimalOutputsSize (serialized.drop offsetE) with
      | none => .error "unable to decode ticket outputs"
      | some sz =>
        .ok { entry with ticketMinOuts := some ((serialized.drop offsetE).take sz) }
    else .ok entry

/-- A concrete trivial instantiation of the compression interface, used to
evaluate `deserializeUtxoEntry` at concrete inputs: every compressed txout
decodes to one byte of amount 7 with an empty script, every script size
is 0, and no output is a ticket submission. -/
def c4TrivialCodec : CompressCodec :=
  { decodeCompressedTxOut := fun bs => if bs.length = 0 then none else some (7, 0, [], 1)
    decodeCompressedScriptSize := fun _ => 0
    decompressScript := fun bs => bs
    isTicketSubmissionOutput := fun _ _ => false
    readMinimalOutputsSize := fun _ => none }

/-! ### Spec-side definitions

These definitions follow the spec's words (not the source); they exist
only to be compared with the source-derived definitions above. -/

/-- Follows the spec's words: an output "with positive amount" —
`Value > 0` for VAR outputs, `SKAValue` present and positive for SKA
outputs. -/
def specPositiveAmountOut (o : TxOut) : Bool :=
  if isSKA o.coinType then
    match o.skaValue with
    | some v => decide (0 < v)
    | none => false
  else decide (0 < o.value)

/-- Follows the spec's words: the sum of the values of the VAR outputs of
a transaction. -/
def specVarOutputSum (outs : List TxOut) : Int :=
  ((outs.filter (fun o => isVAR o.coinType)).map (fun o => o.value)).sum

/-- Follows the spec's words: the emission marker condition "signature
script begins with the four bytes 0x01 S K A". -/
def specBeginsWithSKAMarker (script : List Nat) : Bool :=
  script.take 4 == [1, 83, 75, 65]

/- Concrete inputs used by counterexamples and witnesses. -/

/-- A transaction whose single null-outpoint input carries the signature
script `[0x02, S, K, A]` — the script ends with "SKA" but does not begin
with `[0x01, S, K, A]` — and whose single output is an SKA output. -/
def c6Tx : MsgTx :=
  { version := 1
    txIn := [{ previousOutPoint := { hash := zeroHash, index := 4294967295, tree := 0 }
               sequence := 4294967295
               valueIn := 0
               skaValueIn := none
               blockHeight := 0
               blockIndex := 0
               signatureScript := [2, 83, 75, 65] }]
    txOut := [{ value := 0, skaValue := some 5, coinType := 1, version := 0, pkScript := [] }]
    lockTime := 0
    expiry := 0 }

/-- An SKA coin configuration whose maximum supply (5 atoms) is below its
configured minimum relay fee (10 atoms/KB). -/
def c7Config : SKACoinConfig :=
  { active := true
    emissionHeight := 0
    maxSupply := 5
    minRelayTxFee := some 10
    maxFeeMultiplier := 1 }

/-- The fee calculator obtained by registering `c7Config` for coin type 1
(as `initializeDefaultFeeRates` does for every active configured coin). -/
def c7Calculator : CoinTypeFeeCalculator :=
  { feeRates := [(1, getDefaultSKAFeeRate c7Config)]
    utilizationStats := [] }

/-- A VAR-only fee-rate record (dynamic multiplier 1, no SKA fields), as
set up for coin type VAR at construction. -/
def c8VarFeeRate : CoinTypeFeeRate :=
  { minRelayFee := 10000
    dynamicFeeMultiplier := 1
    maxFeeRate := 1000000
    skaMinRelayFee := none
    skaMaxFeeRate := none }

/-- A fee calculator that only knows coin type VAR. -/
def c8Calculator : CoinTypeFeeCalculator :=
  { feeRates := [(CoinTypeVAR, c8VarFeeRate)]
    utilizationStats := [] }

/-- Proof-side single-key projection of `connectBurn1`: the effect of one
connected burn on one coin type's total (`none` = entry absent). -/
def connStep (st : Option Int) (a : Int) : Option Int :=
  some (st.getD 0 + a)

/-- Proof-side single-key projection of `disconnectBurn1`. -/
def discStep (st : Option Int) (a : Int) : Option Int :=
  match st with
  | some v => if v - a ≤ 0 then none else some (v - a)
  | none => none

/-! ## Theorems -/

/-! ### Byte-encoding lemmas -/

theorem natToBytesBEAux_zero (fuel : Nat) : natToBytesBEAux fuel 0 = [] := by
  cases fuel <;> simp [natToBytesBEAux]

theorem natToBytesBEAux_fuel_irrel :
    ∀ fuel fuel' n : Nat, n ≤ fuel → n ≤ fuel' →
      natToBytesBEAux fuel n = natToBytesBEAux fuel' n := by
  intro fuel
  induction fuel with
  | zero =>
    intro fuel' n hn _
    have : n = 0 := Nat.le_zero.mp hn
    subst this
    rw [natToBytesBEAux_zero, natToBytesBEAux_zero]
  | succ f ih =>
    intro fuel' n hn hn'
    by_cases h0 : n = 0
    · subst h0
      rw [natToBytesBEAux_zero, natToBytesBEAux_zero]
    · cases fuel' with
      | zero => omega
      | succ f' =>
        simp only [natToBytesBEAux, h0, if_false]
        have hlt : n / 256 < n := Nat.div_lt_self (Nat.pos_of_ne_zero h0) (by omega)
        rw [ih f' (n / 256) (by omega) (by omega)]

theorem natToBytesBE_eq (n : Nat) :
    natToBytesBE n = if n = 0 then [] else natToBytesBE (n / 256) ++ [n % 256] := by
  by_cases h0 : n = 0
  · subst h0; simp [natToBytesBE, natToBytesBEAux_zero]
  · cases n with
    | zero => omega
    | succ m =>
      simp only [natToBytesBE, natToBytesBEAux, h0, if_false]
      have hlt : (m + 1) / 256 < m + 1 := Nat.div_lt_self (by omega) (by omega)
      rw [natToBytesBEAux_fuel_irrel m ((m + 1) / 256) ((m + 1) / 256) (by omega) (by omega)]

theorem bytesToNatBE_append_one (xs : List Nat) (b : Nat) :
    bytesToNatBE (xs ++ [b]) = bytesToNatBE xs * 256 + b := by
  simp [bytesToNatBE, List.foldl_append]

theorem bytesToNatBE_natToBytesBE (n : Nat) : bytesToNatBE (natToBytesBE n) = n := by
  induction n using Nat.strong_induction_on with
  | _ n ih =>
    rw [natToBytesBE_eq]
    by_cases h0 : n = 0
    · subst h0; simp [bytesToNatBE]
    · simp only [h0, if_false]
      have hlt : n / 256 < n := Nat.div_lt_self (Nat.pos_of_ne_zero h0) (by omega)
      rw [bytesToNatBE_append_one, ih (n / 256) hlt]
      omega

theorem natToBytesBE_eq_nil_iff (n : Nat) : natToBytesBE n = [] ↔ n = 0 := by
  rw [natToBytesBE_eq]
  by_cases h0 : n = 0 <;> simp [h0]

/-! ### Association-list lemmas -/

theorem mapLookup_nil (c : Nat) : mapLookup ([] : List (Nat × α)) c = none := rfl

theorem mapLookup_cons (k : Nat) (v : α) (m : List (Nat × α)) (c : Nat) :
    mapLookup ((k, v) :: m) c = if k = c then some v else mapLookup m c := by
  simp only [mapLookup, List.find?]
  by_cases h : k = c <;> simp [h]

theorem mapErase_cons (pk : Nat) (pv : α) (rest : List (Nat × α)) (k : Nat) :
    mapErase ((pk, pv) :: rest) k =
      if pk = k then mapErase rest k else (pk, pv) :: mapErase rest k := by
  simp only [mapErase, List.filter_cons]
  by_cases h : pk = k <;> simp [h]

theorem mapLookup_mapErase (m : List (Nat × α)) (k c : Nat) :
    mapLookup (mapErase m k) c = if k = c then none else mapLookup m c := by
  induction m with
  | nil => by_cases h : k = c <;> simp [mapErase, mapLookup_nil, h]
  | cons p rest ih =>
    obtain ⟨pk, pv⟩ := p
    rw [mapErase_cons]
    by_cases hpk : pk = k
    · subst hpk
      rw [if_pos rfl, ih, mapLookup_cons]
      by_cases h : pk = c
      · simp [h]
      · simp [h]
    · rw [if_neg hpk, mapLookup_cons, mapLookup_cons, ih]
      by_cases h : pk = c
      · subst h
        have : ¬ k = pk := fun hh => hpk hh.symm
        simp [this]
      · simp [h]

theorem mapLookup_mapInsert (m : List (Nat × α)) (k : Nat) (v : α) (c : Nat) :
    mapLookup (mapInsert m k v) c = if k = c then some v else mapLookup m c := by
  simp only [mapInsert, mapLookup_cons, mapLookup_mapErase]
  by_cases h : k = c <;> simp [h]

/-! ### C10 — SKAAmount byte round trips -/

/-- **C10**: for every SKA amount `a`, decoding `SignedBytes a` recovers
`a` exactly (zero encoded as the single byte 0), while decoding the
unsigned `Bytes a` yields the absolute value of `a`, so the unsigned wire
round trip holds only for non-negative amounts. -/
theorem skaAmount_bytes_roundtrip (a : Int) :
    skaAmountFromSignedBytes (skaAmountSignedBytes a) = a ∧
    skaAmountFromBytes (skaAmountBytes a) = |a| := by
  by_cases h0 : a = 0
  · subst h0
    constructor
    · simp [skaAmountSignedBytes, skaAmountFromSignedBytes]
    · simp [skaAmountBytes, skaAmountFromBytes]
  · have habs : a.natAbs ≠ 0 := by
      intro h; exact h0 (Int.natAbs_eq_zero.mp h)
    have hmagne : natToBytesBE a.natAbs ≠ [] := by
      intro h; exact habs ((natToBytesBE_eq_nil_iff _).mp h)
    have hmaglen : 1 ≤ (natToBytesBE a.natAbs).length := by
      cases hm : natToBytesBE a.natAbs with
      | nil => exact absurd hm hmagne
      | cons x xs => simp
    constructor
    · simp only [skaAmountSignedBytes, h0, if_false]
      simp only [skaAmountFromSignedBytes, List.length_cons]
      have hlen0 : ¬ ((natToBytesBE a.natAbs).length + 1 = 0) := by omega
      have hlen1 : ¬ ((natToBytesBE a.natAbs).length + 1 = 1) := by omega
      simp only [hlen0, if_false, hlen1, List.headD_cons, List.tail_cons]
      rw [bytesToNatBE_natToBytesBE]
      by_cases hneg : a < 0
      · simp only [hneg, if_true]
        omega
      · simp only [hneg, if_false]
        have : ¬ ((0 : Nat) = 1) := by omega
        simp only [this, if_false]
        omega
    · simp only [skaAmountBytes, h0, if_false, skaAmountFromBytes, hmagne, if_false]
      rw [bytesToNatBE_natToBytesBE]
      rw [Int.abs_eq_natAbs]

/-! ### C9 — primary coin type of a transaction -/

theorem findPositiveOut_eq (l : List TxOut) :
    findPositiveOut l = (l.find? specPositiveAmountOut).map (fun o => o.coinType) := by
  induction l with
  | nil => rfl
  | cons o rest ih =>
    simp only [findPositiveOut, List.find?]
    by_cases hska : isSKA o.coinType
    · cases hv : o.skaValue with
      | none => simp [specPositiveAmountOut, hska, hv, ih]
      | some v =>
        by_cases hpos : 0 < v
        · simp [specPositiveAmountOut, hska, hv, hpos]
        · simp [specPositiveAmountOut, hska, hv, hpos, ih]
    · by_cases hpos : 0 < o.value
      · simp [specPositiveAmountOut, hska, hpos]
      · simp [specPositiveAmountOut, hska, hpos, ih]

/-- **C9**: `GetTransactionCoinType` returns the coin type of the first
output with a positive amount (`Value > 0` for VAR outputs, `SKAValue`
present and positive for SKA outputs); if no output has a positive amount
it returns the first output's coin type; a transaction with no outputs
yields VAR. -/
theorem getTransactionCoinType_spec (tx : MsgTx) :
    getTransactionCoinType tx =
      match tx.txOut.find? specPositiveAmountOut with
      | some o => o.coinType
      | none =>
        match tx.txOut with
        | [] => CoinTypeVAR
        | first :: _ => first.coinType := by
  cases hout : tx.txOut with
  | nil => simp [getTransactionCoinType, hout]
  | cons first rest =>
    simp only [getTransactionCoinType, hout, findPositiveOut_eq]
    cases hfind : (first :: rest).find? specPositiveAmountOut with
    | none => simp
    | some o => simp

/-! ### C6 — SKA emission transaction detection -/

/-- **C6 (amended)**: `IsSKAEmissionTransaction` returns true iff the
transaction has exactly one input whose previous outpoint has the zero
hash and index `0xffffffff` (the tree is not checked), that input's
signature script has length at least 4 and ENDS with the three bytes
`"SKA"` (the `[0x01, S, K, A]` marker is not required to be a prefix),
the transaction has at least one output, and every output's coin type is
the `wire.CoinTypeSKA` constant. -/
theorem isSKAEmissionTransaction_spec (tx : MsgTx) :
    isSKAEmissionTransaction tx = true ↔
      ∃ txIn, tx.txIn = [txIn] ∧
        tx.txOut ≠ [] ∧
        txIn.previousOutPoint.hash = zeroHash ∧
        txIn.previousOutPoint.index = 4294967295 ∧
        4 ≤ txIn.signatureScript.length ∧
        txIn.signatureScript.drop (txIn.signatureScript.length - 3) = [83, 75, 65] ∧
        ∀ o ∈ tx.txOut, o.coinType = coinTypeSKA := by
  cases hin : tx.txIn with
  | nil => simp [isSKAEmissionTransaction, hin]
  | cons txIn rest =>
    cases rest with
    | cons b tl => simp [isSKAEmissionTransaction, hin]
    | nil =>
      simp only [isSKAEmissionTransaction, hin]
      constructor
      · intro h
        by_cases h1 : tx.txOut.length = 0
        · rw [if_pos h1] at h; exact absurd h (by simp)
        · rw [if_neg h1] at h
          by_cases h2 : txIn.previousOutPoint.hash = zeroHash ∧
              txIn.previousOutPoint.index = 4294967295
          · rw [if_neg (not_not_intro h2)] at h
            by_cases h3 : txIn.signatureScript.length < 4
            · rw [if_pos h3] at h; exact absurd h (by simp)
            · rw [if_neg h3] at h
              by_cases h4 : txIn.signatureScript.drop
                  (txIn.signatureScript.length - 3) = [83, 75, 65]
              · rw [if_neg (not_not_intro h4)] at h
                rw [List.all_eq_true] at h
                refine ⟨txIn, rfl, by simpa [List.length_eq_zero] using h1,
                  h2.1, h2.2, by omega, h4, ?_⟩
                intro o ho
                simpa using h o ho
              · rw [if_pos h4] at h; exact absurd h (by simp)
          · rw [if_pos h2] at h; exact absurd h (by simp)
      · rintro ⟨txIn', heq, hout, hhash, hidx, hslen, hdrop, hall⟩
        have hxx : txIn = txIn' := by simpa using heq
        subst hxx
        have hlen : ¬ tx.txOut.length = 0 := by
          simpa [List.length_eq_zero] using hout
        rw [if_neg hlen, if_neg (not_not_intro ⟨hhash, hidx⟩),
          if_neg (by omega : ¬ txIn.signatureScript.length < 4),
          if_neg (not_not_intro hdrop)]
        rw [List.all_eq_true]
        intro o ho
        simpa using hall o ho

/-- **C6 counterexample**: a transaction whose single null-outpoint
input's signature script is `[0x02, S, K, A]` is accepted by
`IsSKAEmissionTransaction` even though the script does not begin with the
four bytes `[0x01, S, K, A]` required by the claim. -/
theorem isSKAEmissionTransaction_counterexample :
    isSKAEmissionTransaction c6Tx = true ∧
    ∃ txIn, c6Tx.txIn = [txIn] ∧
      specBeginsWithSKAMarker txIn.signatureScript = false := by
  constructor
  · decide
  · refine ⟨_, rfl, ?_⟩
    decide

/-! ### C2 — fee split -/

theorem mapLookup_filterMap_of_not_mem (l : List (Nat × Int))
    (g : Nat × Int → Option (Nat × Int))
    (hg : ∀ p q, g p = some q → q.1 = p.1) (c : Nat)
    (hc : c ∉ l.map Prod.fst) :
    mapLookup (l.filterMap g) c = none := by
  induction l with
  | nil => rfl
  | cons p rest ih =>
    have hc1 : ¬ p.1 = c := by
      intro h; exact hc (by simp [h.symm])
    have hcr : c ∉ rest.map Prod.fst := fun h => hc (by simp [h])
    rw [List.filterMap_cons]
    cases hgp : g p with
    | none => exact ih hcr
    | some q =>
      rw [mapLookup_cons]
      have : ¬ q.1 = c := by rw [hg p q hgp]; exact hc1
      rw [if_neg this]
      exact ih hcr

theorem mapLookup_filterMap_of_mem (l : List (Nat × Int))
    (g : Nat × Int → Option (Nat × Int))
    (hg : ∀ p q, g p = some q → q.1 = p.1)
    (hnd : (l.map Prod.fst).Nodup) (c : Nat) (t : Int)
    (hm : (c, t) ∈ l) :
    mapLookup (l.filterMap g) c = (g (c, t)).map (fun q => q.2) := by
  induction l with
  | nil => cases hm
  | cons p rest ih =>
    have hnd' : (rest.map Prod.fst).Nodup := by
      simpa using hnd.of_cons
    rcases List.mem_cons.mp hm with hhd | htl
    · subst hhd
      rw [List.filterMap_cons]
      have hcr : c ∉ rest.map Prod.fst := by
        have := hnd
        simp only [List.map_cons, List.nodup_cons] at this
        exact this.1
      cases hgp : g (c, t) with
      | none =>
        rw [mapLookup_filterMap_of_not_mem rest g hg c hcr]
        rfl
      | some q =>
        rw [mapLookup_cons]
        have : q.1 = c := hg _ _ hgp
        rw [if_pos this]
        rfl
    · have hp1 : ¬ p.1 = c := by
        intro h
        have hcmem : c ∈ rest.map Prod.fst := by
          exact List.mem_map.mpr ⟨(c, t), htl, rfl⟩
        have := hnd
        simp only [List.map_cons, List.nodup_cons] at this
        exact this.1 (h ▸ hcmem)
      rw [List.filterMap_cons]
      cases hgp : g p with
      | none => exact ih hnd' htl
      | some q =>
        rw [mapLookup_cons]
        have : ¬ q.1 = c := by rw [hg p q hgp]; exact hp1
        rw [if_neg this]
        exact ih hnd' htl

/-- **C2 (amended)**: for every fee map (association list with distinct
keys) and proportions `work`, `stake` whose SUM DOES NOT OVERFLOW `uint16`
(`work + stake < 65536`) and is positive, every coin type `c` with
`fees[c] = t > 0` satisfies `miner[c] + staker[c] = t` with
`staker[c] = (t·stake) / (work+stake)` rounded down (an absent map entry
counting as 0, since only positive shares are stored); in particular
`fees = [VAR ↦ 100]` with proportions `(1, 2)` yields
`miner = [VAR ↦ 34]` and `staker = [VAR ↦ 66]`.  The original claim's
premise `work + stake > 0` is not sufficient because the Go `uint16` sum
wraps modulo 2^16 (see the counterexample). -/
theorem calcFeeSplitByCoinType_spec :
    (∀ (fees : List (Nat × Int)) (w s : Nat), w + s < 65536 → 0 < w + s →
      (fees.map Prod.fst).Nodup →
      ∀ c t, (c, t) ∈ fees → 0 < t →
        ((mapLookup (calcFeeSplitByCoinType fees w s).1 c).getD 0 +
          (mapLookup (calcFeeSplitByCoinType fees w s).2 c).getD 0 = t ∧
         (mapLookup (calcFeeSplitByCoinType fees w s).2 c).getD 0 =
           t * (s : Int) / ((w : Int) + (s : Int)))) ∧
    calcFeeSplitByCoinType [(0, 100)] 1 2 = ([(0, 34)], [(0, 66)]) := by
  constructor
  · intro fees w s hlt hpos hnd c t hm ht
    have hmod : (w + s) % 65536 = w + s := Nat.mod_eq_of_lt hlt
    have hadj : (((w + s) % 65536 : Nat) : Int) ≠ 0 := by
      rw [hmod]
      exact_mod_cast (by omega : w + s ≠ 0)
    set adj : Int := (((w + s) % 65536 : Nat) : Int) with hadjdef
    have hadjval : adj = (w : Int) + (s : Int) := by
      rw [hadjdef, hmod]; push_cast; ring
    have hadjpos : 0 < adj := by rw [hadjval]; exact_mod_cast hpos
    -- the two filterMap functions of calcFeeSplitByCoinType
    have hsplit : calcFeeSplitByCoinType fees w s =
        (fees.filterMap (fun p =>
          if p.2 ≤ 0 then none
          else
            let f := splitOneFee w s adj p.2
            if 0 < f.1 then some (p.1, f.1) else none),
         fees.filterMap (fun p =>
          if p.2 ≤ 0 then none
          else
            let f := splitOneFee w s adj p.2
            if 0 < f.2 then some (p.1, f.2) else none)) := by
      rw [calcFeeSplitByCoinType]
      simp only [← hadjdef, if_neg hadj]
    have hgm : ∀ (p q : Nat × Int), (fun (p : Nat × Int) =>
        if p.2 ≤ 0 then none
        else
          let f := splitOneFee w s adj p.2
          if 0 < f.1 then some (p.1, f.1) else none) p = some q → q.1 = p.1 := by
      intro p q hp
      by_cases h1 : p.2 ≤ 0
      · simp [h1] at hp
      · simp only [h1, if_false] at hp
        by_cases h2 : 0 < (splitOneFee w s adj p.2).1
        · simp only [h2, if_true] at hp
          cases hp; rfl
        · simp [h2] at hp
    have hgs : ∀ (p q : Nat × Int), (fun (p : Nat × Int) =>
        if p.2 ≤ 0 then none
        else
          let f := splitOneFee w s adj p.2
          if 0 < f.2 then some (p.1, f.2) else none) p = some q → q.1 = p.1 := by
      intro p q hp
      by_cases h1 : p.2 ≤ 0
      · simp [h1] at hp
      · simp only [h1, if_false] at hp
        by_cases h2 : 0 < (splitOneFee w s adj p.2).2
        · simp only [h2, if_true] at hp
          cases hp; rfl
        · simp [h2] at hp
    -- arithmetic facts about the split of t
    have hstaker : (splitOneFee w s adj t).2 = t * (s : Int) / adj := rfl
    have hminer : (splitOneFee w s adj t).1 = t - t * (s : Int) / adj := by
      simp only [splitOneFee]
      ring
    have hs0 : 0 ≤ t * (s : Int) / adj :=
      Int.ediv_nonneg (mul_nonneg ht.le (by positivity)) hadjpos.le
    have hsle : t * (s : Int) / adj ≤ t := by
      have h1 : t * (s : Int) ≤ t * adj := by
        apply mul_le_mul_of_nonneg_left _ ht.le
        rw [hadjval]
        have : (0 : Int) ≤ (w : Int) := by positivity
        omega
      have h2 : t * (s : Int) / adj ≤ t * adj / adj :=
        Int.ediv_le_ediv hadjpos h1
      rwa [Int.mul_ediv_cancel t (ne_of_gt hadjpos)] at h2
    have hnt : ¬ t ≤ 0 := not_le.mpr ht
    -- evaluate the two lookups
    rw [hsplit]
    simp only
    rw [mapLookup_filterMap_of_mem fees _ hgm hnd c t hm,
      mapLookup_filterMap_of_mem fees _ hgs hnd c t hm]
    simp only [hnt, if_false, hstaker, hminer]
    constructor
    · by_cases hm0 : 0 < t - t * (s : Int) / adj <;>
        by_cases hs0' : 0 < t * (s : Int) / adj <;>
          simp [hm0, hs0'] <;> omega
    · by_cases hs0' : 0 < t * (s : Int) / adj
      · rw [hadjval] at hs0'
        simp [hs0', hadjval]
      · have hz : t * (s : Int) / adj = 0 := by omega
        rw [hadjval] at hs0' hz
        simp [hs0', hadjval, hz]
  · decide

/-- **C2 witness**: the general part of `calcFeeSplitByCoinType_spec`
applied at `fees = [(VAR, 100)]`, `(work, stake) = (1, 2)`, coin VAR. -/
theorem calcFeeSplitByCoinType_spec_witness :
    (mapLookup (calcFeeSplitByCoinType [(0, 100)] 1 2).1 0).getD 0 +
      (mapLookup (calcFeeSplitByCoinType [(0, 100)] 1 2).2 0).getD 0 = 100 ∧
    (mapLookup (calcFeeSplitByCoinType [(0, 100)] 1 2).2 0).getD 0 =
      100 * ((2 : Nat) : Int) / (((1 : Nat) : Int) + ((2 : Nat) : Int)) :=
  calcFeeSplitByCoinType_spec.1 [(0, 100)] 1 2 (by decide) (by decide) (by decide)
    0 100 (by decide) (by decide)

/-- **C2 counterexample**: with `work = stake = 32768` the `uint16` sum
wraps to 0, so although `work + stake > 0` the split returns empty maps
and conservation fails for the positive fee entry `fees[VAR] = 100`. -/
theorem calcFeeSplitByCoinType_counterexample :
    0 < 32768 + 32768 ∧
    calcFeeSplitByCoinType [(0, 100)] 32768 32768 = ([], []) ∧
    (mapLookup (calcFeeSplitByCoinType [(0, 100)] 32768 32768).1 0).getD 0 +
      (mapLookup (calcFeeSplitByCoinType [(0, 100)] 32768 32768).2 0).getD 0 ≠ 100 := by
  exact ⟨by decide, by decide, by decide⟩

/-! ### C1 — burn ledger reorg round trip -/

theorem mapLookup_connectBurn1 (m : List (Nat × Int)) (r : SKABurnRecord) (ct : Nat) :
    mapLookup (connectBurn1 m r) ct =
      if r.coinType = ct then connStep (mapLookup m ct) r.amount
      else mapLookup m ct := by
  unfold connectBurn1
  cases hl : mapLookup m r.coinType with
  | none =>
    rw [mapLookup_mapInsert]
    by_cases h : r.coinType = ct
    · subst h
      simp [connStep, hl]
    · simp [h]
  | some existing =>
    rw [mapLookup_mapInsert]
    by_cases h : r.coinType = ct
    · subst h
      simp [connStep, hl]
    · simp [h]

theorem mapLookup_disconnectBurn1 (m : List (Nat × Int)) (r : SKABurnRecord) (ct : Nat) :
    mapLookup (disconnectBurn1 m r) ct =
      if r.coinType = ct then discStep (mapLookup m ct) r.amount
      else mapLookup m ct := by
  cases hl : mapLookup m r.coinType with
  | none =>
    simp only [disconnectBurn1, hl]
    by_cases h : r.coinType = ct
    · subst h
      simp [discStep, hl]
    · simp [h]
  | some existing =>
    simp only [disconnectBurn1, hl]
    by_cases hle : existing - r.amount ≤ 0
    · rw [if_pos hle, mapLookup_mapErase]
      by_cases h : r.coinType = ct
      · subst h
        simp [discStep, hl, hle]
      · simp [h]
    · rw [if_neg hle, mapLookup_mapInsert]
      by_cases h : r.coinType = ct
      · subst h
        simp [discStep, hl, hle]
      · simp [h]

theorem mapLookup_connectSKABurns (m : List (Nat × Int)) (rs : List SKABurnRecord)
    (ct : Nat) :
    mapLookup (connectSKABurns m rs) ct =
      List.foldl connStep (mapLookup m ct)
        ((rs.filter (fun r => r.coinType = ct)).map (fun r => r.amount)) := by
  induction rs generalizing m with
  | nil => rfl
  | cons r rest ih =>
    rw [connectSKABurns, List.foldl_cons, ← connectSKABurns, ih, List.filter_cons]
    by_cases h : r.coinType = ct
    · simp [h, mapLookup_connectBurn1]
    · simp [h, mapLookup_connectBurn1]

theorem mapLookup_disconnectSKABurns (m : List (Nat × Int)) (rs : List SKABurnRecord)
    (ct : Nat) :
    mapLookup (disconnectSKABurns m rs) ct =
      List.foldl discStep (mapLookup m ct)
        ((rs.filter (fun r => r.coinType = ct)).map (fun r => r.amount)) := by
  induction rs generalizing m with
  | nil => rfl
  | cons r rest ih =>
    rw [disconnectSKABurns, List.foldl_cons, ← disconnectSKABurns, ih, List.filter_cons]
    by_cases h : r.coinType = ct
    · simp [h, mapLookup_disconnectBurn1]
    · simp [h, mapLookup_disconnectBurn1]

theorem connStep_discStep_roundtrip (as : List Int) (st : Option Int)
    (ha : ∀ a ∈ as, 0 ≤ a) (hst : ∀ v, st = some v → 0 ≤ v) :
    List.foldl discStep (List.foldl connStep st as) as.reverse =
      if as = [] then st
      else st.bind (fun v => if v = 0 then none else some v) := by
  induction as generalizing st with
  | nil => simp
  | cons a rest ih =>
    have ha' : ∀ x ∈ rest, 0 ≤ x := fun x hx => ha x (List.mem_cons_of_mem a hx)
    have ha0 : 0 ≤ a := ha a (List.mem_cons_self a rest)
    have hcons : ¬ (a :: rest = []) := by simp
    rw [List.foldl_cons, List.reverse_cons, List.foldl_append, List.foldl_cons,
      List.foldl_nil]
    rcases st with _ | v
    · -- st = none
      have hnz : connStep none a = some (0 + a) := rfl
      have hmid := ih (connStep none a) ha'
        (fun w hw => by simp only [connStep, Option.getD_none, Option.some.injEq] at hw; omega)
      rw [hmid]
      simp only [hcons, if_false]
      by_cases hrest : rest = []
      · rw [if_pos hrest, hnz]
        have hle : (0 : Int) + a - a ≤ 0 := by omega
        simp [discStep, hle]
      · rw [if_neg hrest, hnz]
        by_cases hz : (0 : Int) + a = 0
        · simp [hz, discStep]
        · have haz : ¬ (a = 0) := by omega
          simp [discStep, haz]
    · -- st = some v
      have hv0 : 0 ≤ v := hst v rfl
      have hnz : connStep (some v) a = some (v + a) := rfl
      have hmid := ih (connStep (some v) a) ha'
        (fun w hw => by simp only [connStep, Option.getD_some, Option.some.injEq] at hw; omega)
      rw [hmid]
      simp only [hcons, if_false]
      by_cases hrest : rest = []
      · rw [if_pos hrest, hnz]
        by_cases hz : v = 0
        · have hle : v + a - a ≤ 0 := by omega
          simp [discStep, hle, hz]
        · have hle : ¬ (v + a - a ≤ 0) := by omega
          have hva : v + a - a = v := by omega
          simp only [discStep, hle, if_false, hva, Option.some_bind, hz, if_neg hz]
          rw [if_neg (by omega : ¬ (v ≤ 0))]
      · rw [if_neg hrest, hnz]
        by_cases hz : v = 0
        · by_cases hza : v + a = 0
          · have haz : a = 0 := by omega
            simp [hza, discStep, hz, haz]
          · have haz : ¬ (a = 0) := by omega
            simp [hza, discStep, hz, haz]
        · have hza : ¬ (v + a = 0) := by omega
          have hle : ¬ (v + a - a ≤ 0) := by omega
          have hva : v + a - a = v := by omega
          simp [hza, discStep, hle, hva, hz]
          omega

theorem connStep_foldl_mono (as : List Int) (st : Option Int)
    (ha : ∀ a ∈ as, 0 ≤ a) :
    st.getD 0 ≤ (List.foldl connStep st as).getD 0 := by
  induction as generalizing st with
  | nil => simp
  | cons a rest ih =>
    have ha' : ∀ x ∈ rest, 0 ≤ x := fun x hx => ha x (List.mem_cons_of_mem a hx)
    have ha0 : 0 ≤ a := ha a (List.mem_cons_self a rest)
    rw [List.foldl_cons]
    calc st.getD 0 ≤ (connStep st a).getD 0 := by
          simp only [connStep, Option.getD_some]
          omega
    _ ≤ _ := ih (connStep st a) ha'

theorem mapLookup_mem (m : List (Nat × Int)) (ct : Nat) (v : Int)
    (h : mapLookup m ct = some v) : (ct, v) ∈ m := by
  unfold mapLookup at h
  cases hf : m.find? (fun p => p.1 = ct) with
  | none => rw [hf] at h; cases h
  | some q =>
    rw [hf] at h
    have h2 : q.2 = v := by simpa using h
    have hq : q ∈ m := List.mem_of_find?_eq_some hf
    have hq1 : q.1 = ct := by simpa using List.find?_some hf
    have hqv : q = (ct, v) := by
      cases q
      simp_all
    rwa [hqv] at hq

/-- **C1 (amended)**: for every burn ledger whose totals are all strictly
positive and every list of burn records with non-negative amounts,
connecting the records and then disconnecting them in reverse order
restores the in-memory per-coin-type totals map pointwise, hence also the
per-coin bucket contents written by `saveWithTx`; and the `Connect` path
never decreases any total.  The positivity restriction is necessary: a
ledger holding a zero total (reachable by connecting a zero-amount burn)
is not restored exactly (see the counterexample). -/
theorem skaBurnState_connect_disconnect_roundtrip (m : List (Nat × Int))
    (rs : List SKABurnRecord)
    (hm : ∀ p ∈ m, 0 < p.2) (hb : ∀ r ∈ rs, 0 ≤ r.amount) :
    (∀ ct, mapLookup (disconnectSKABurns (connectSKABurns m rs) rs.reverse) ct
        = mapLookup m ct) ∧
    (∀ ct, savedBurnValue (disconnectSKABurns (connectSKABurns m rs) rs.reverse) ct
        = savedBurnValue m ct) ∧
    (∀ ct, (mapLookup m ct).getD 0 ≤ (mapLookup (connectSKABurns m rs) ct).getD 0) := by
  have hkey : ∀ ct, mapLookup (disconnectSKABurns (connectSKABurns m rs) rs.reverse) ct
      = mapLookup m ct := by
    intro ct
    rw [mapLookup_disconnectSKABurns, mapLookup_connectSKABurns,
      List.filter_reverse, List.map_reverse]
    set as := (rs.filter (fun r => r.coinType = ct)).map (fun r => r.amount) with hasdef
    have ha : ∀ a ∈ as, 0 ≤ a := by
      intro a haa
      rw [hasdef] at haa
      obtain ⟨r, hr, hra⟩ := List.mem_map.mp haa
      exact hra ▸ hb r (List.mem_of_mem_filter hr)
    have hst : ∀ v, mapLookup m ct = some v → 0 ≤ v := by
      intro v hv
      exact (hm (ct, v) (mapLookup_mem m ct v hv)).le
    rw [connStep_discStep_roundtrip as (mapLookup m ct) ha hst]
    by_cases hnil : as = []
    · simp [hnil]
    · simp only [hnil, if_false]
      cases hv : mapLookup m ct with
      | none => rfl
      | some v =>
        have hvpos : 0 < v := hm (ct, v) (mapLookup_mem m ct v hv)
        simp [ne_of_gt hvpos]
  refine ⟨hkey, ?_, ?_⟩
  · intro ct
    unfold savedBurnValue
    rw [hkey ct]
  · intro ct
    rw [mapLookup_connectSKABurns]
    apply connStep_foldl_mono
    intro a haa
    obtain ⟨r, hr, hra⟩ := List.mem_map.mp haa
    exact hra ▸ hb r (List.mem_of_mem_filter hr)

/-- **C1 witness**: the round trip applied at the ledger `[SKA-1 ↦ 10]`
and one burn of 5 atoms of SKA-1, evaluated at coin type 1. -/
theorem skaBurnState_connect_disconnect_roundtrip_witness :
    mapLookup
        (disconnectSKABurns
          (connectSKABurns [(1, 10)]
            [{ coinType := 1, amount := 5, height := 7, txHash := [], outIndex := 0 }])
          [({ coinType := 1, amount := 5, height := 7, txHash := [], outIndex := 0 }
            : SKABurnRecord)].reverse) 1
      = mapLookup [(1, 10)] 1 :=
  (skaBurnState_connect_disconnect_roundtrip [(1, 10)]
    [{ coinType := 1, amount := 5, height := 7, txHash := [], outIndex := 0 }]
    (by decide) (by decide)).1 1

/-- **C1 counterexample**: the claim as stated fails for the ledger
`[SKA-1 ↦ 0]` (reachable by connecting a zero-amount burn record):
connecting and then disconnecting a 5-atom burn of SKA-1 deletes the
entry instead of restoring the zero total, so the in-memory map is not
restored to its initial state. -/
theorem skaBurnState_roundtrip_counterexample :
    disconnectSKABurns
        (connectSKABurns [(1, 0)]
          [{ coinType := 1, amount := 5, height := 7, txHash := [], outIndex := 0 }])
        [({ coinType := 1, amount := 5, height := 7, txHash := [], outIndex := 0 }
          : SKABurnRecord)].reverse = [] ∧
    mapLookup ([] : List (Nat × Int)) 1 ≠ mapLookup [(1, 0)] 1 := by
  exact ⟨by decide, by decide⟩

/-! ### C5 — burn ledger load -/

theorem bytesToNatLE_uint32LEBytes (n : Nat) (h : n < 4294967296) :
    bytesToNatLE (uint32LEBytes n) = n := by
  simp only [uint32LEBytes, bytesToNatLE, List.foldr]
  omega

theorem singleByteKey_ne_versionKey (c : Nat) :
    ¬ ([c] : List Nat) = skaBurnStateVersionKeyBytes := by
  simp [skaBurnStateVersionKeyBytes]

/-- **C5 (amended)**: `SKABurnState.load` decodes a version-1 ledger
(missing meta version key) as fixed 8-byte little-endian `int64` values;
a version-2 ledger's per-coin values are decoded by `SetBytes` over the
ENTIRE (non-empty) stored value — a plain big-endian magnitude with NO
1-byte length prefix, matching what `saveWithTx` writes; any stored
version greater than 2 is rejected; and any key for coin type 0 is
rejected. -/
theorem skaBurnStateLoad_spec :
    (∀ (c : Nat) (v : List Nat), 1 ≤ c → c ≤ 255 → v.length = 8 →
      skaBurnStateLoad (some [([c], v)])
        = .ok [(c, int64OfUint64 (bytesToNatLE v))]) ∧
    (∀ (c : Nat) (v : List Nat), 1 ≤ c → c ≤ 255 → v ≠ [] →
      skaBurnStateLoad (some [(skaBurnStateVersionKeyBytes, uint32LEBytes 2), ([c], v)])
        = .ok [(c, (bytesToNatBE v : Int))]) ∧
    (∀ (ver : Nat) (bucket : List (List Nat × List Nat)), 2 < ver → ver < 4294967296 →
      skaBurnStateLoad (some ((skaBurnStateVersionKeyBytes, uint32LEBytes ver) :: bucket))
        = .error "unsupported SKA burn state version") ∧
    (∀ v : List Nat, skaBurnStateLoad (some [([0], v)])
        = .error "invalid coin type 0 found in SKA burn state") := by
  refine ⟨?_, ?_, ?_, ?_⟩
  · intro c v hc1 hc255 hlen
    have hkey := singleByteKey_ne_versionKey c
    have hc0 : ¬ (c = 0) := by omega
    simp [skaBurnStateLoad, bucketGet, List.find?, hkey, loadBurnEntry, loadBurnValue,
      hlen, hc0, mapInsert, mapErase, skaBurnStateFormatVersion]
  · intro c v hc1 hc255 hne
    have hkey := singleByteKey_ne_versionKey c
    have hc0 : ¬ (c = 0) := by omega
    have hvlen : ¬ (v.length < 1) := by
      cases v with
      | nil => exact absurd rfl hne
      | cons a rest => simp
    have h2 : bytesToNatLE [2, 0, 0, 0] = 2 := rfl
    simp [skaBurnStateLoad, bucketGet, List.find?, hkey, loadBurnEntry, loadBurnValue,
      hc0, hvlen, hne, h2, mapInsert, mapErase, skaBurnStateFormatVersion, uint32LEBytes]
    rfl
  · intro ver bucket hgt hlt
    have hver := bytesToNatLE_uint32LEBytes ver hlt
    have h4 : (uint32LEBytes ver).length = 4 := rfl
    simp [skaBurnStateLoad, bucketGet, List.find?, hver, h4,
      skaBurnStateFormatVersion, hgt]
  · intro v
    have hkey := singleByteKey_ne_versionKey 0
    simp [skaBurnStateLoad, bucketGet, List.find?, hkey, loadBurnEntry,
      skaBurnStateFormatVersion]

/-- **C5 witness**: the amended load behavior at concrete buckets — a
version-1 value `[5,0,0,0,0,0,0,0]` for coin 1 loads as 5, and a
version-2 value `[1,5]` loads as 261 (SetBytes over the whole value). -/
theorem skaBurnStateLoad_spec_witness :
    skaBurnStateLoad (some [([1], [5, 0, 0, 0, 0, 0, 0, 0])])
      = .ok [(1, int64OfUint64 (bytesToNatLE [5, 0, 0, 0, 0, 0, 0, 0]))] ∧
    skaBurnStateLoad (some [(skaBurnStateVersionKeyBytes, uint32LEBytes 2), ([1], [1, 5])])
      = .ok [(1, (bytesToNatBE [1, 5] : Int))] :=
  ⟨skaBurnStateLoad_spec.1 1 [5, 0, 0, 0, 0, 0, 0, 0] (by decide) (by decide) (by decide),
   skaBurnStateLoad_spec.2.1 1 [1, 5] (by decide) (by decide) (by decide)⟩

/-- **C5 counterexample**: a version-2 per-coin value `[0x01, 0x05]` is
decoded by `load` as the big-endian magnitude of the WHOLE value, 261 —
not as a 1-byte-length-prefixed magnitude, which would give 5. -/
theorem skaBurnStateLoad_counterexample :
    skaBurnStateLoad (some [(skaBurnStateVersionKeyBytes, uint32LEBytes 2), ([1], [1, 5])])
      = .ok [(1, 261)] ∧
    specV2LengthTaggedDecode [1, 5] = some 5 ∧
    (261 : Int) ≠ 5 := by
  exact ⟨by decide, by decide, by decide⟩

/-! ### C3 — transaction sanity -/

theorem wrap64_id (x : Int) (hlo : -(2 ^ 63) ≤ x) (hhi : x < 2 ^ 63) :
    wrap64 x = x := by
  unfold wrap64
  have h1 : 0 ≤ x + 2 ^ 63 := by omega
  have h2 : x + 2 ^ 63 < 2 ^ 64 := by omega
  rw [Int.emod_eq_of_lt h1 h2]
  omega

theorem validateCoinTypeFields_ok_iff (o : TxOut) :
    validateCoinTypeFields o = .ok () ↔
      ((isVAR o.coinType ∧ o.skaValue = none) ∨
       (¬ isVAR o.coinType ∧ o.value = 0 ∧ ∃ v, o.skaValue = some v ∧ 0 ≤ v)) := by
  unfold validateCoinTypeFields
  by_cases hvar : isVAR o.coinType
  · rw [if_pos hvar]
    by_cases hska : o.skaValue = none
    · rw [if_neg (not_not_intro hska)]
      simp [hska, hvar]
    · rw [if_pos hska]
      simp [hska, hvar]
  · rw [if_neg hvar]
    by_cases hval : o.value = 0
    · rw [if_neg (not_not_intro hval)]
      cases hv : o.skaValue with
      | none =>
        rw [if_pos (rfl : (none : Option Int) = none)]
        simp [hvar, hval]
      | some v =>
        rw [if_neg (by simp : ¬ ((some v : Option Int) = none))]
        by_cases hneg : v < 0
        · rw [if_pos (by simpa using hneg : ((some v : Option Int)).getD 0 < 0)]
          constructor
          · intro h; cases h
          · rintro (⟨h, _⟩ | ⟨_, _, w, hw, hw0⟩)
            · exact absurd h hvar
            · cases hw
              omega
        · rw [if_neg (by simpa using hneg : ¬ (((some v : Option Int)).getD 0 < 0))]
          constructor
          · intro _
            exact Or.inr ⟨hvar, hval, v, rfl, by omega⟩
          · intro _
            rfl
    · rw [if_pos hval]
      constructor
      · intro h; cases h
      · rintro (⟨h, _⟩ | ⟨_, h, _⟩)
        · exact absurd h hvar
        · exact absurd h hval

theorem specVarOutputSum_nil : specVarOutputSum [] = 0 := rfl

theorem specVarOutputSum_cons (o : TxOut) (rest : List TxOut) :
    specVarOutputSum (o :: rest) =
      (if isVAR o.coinType then o.value else 0) + specVarOutputSum rest := by
  simp only [specVarOutputSum, List.filter_cons]
  by_cases h : isVAR o.coinType
  · simp [h]
  · simp [h]

theorem specVarOutputSum_nonneg (outs : List TxOut)
    (h : ∀ o ∈ outs, isVAR o.coinType → 0 ≤ o.value ∧ o.value ≤ MaxVARAtoms) :
    0 ≤ specVarOutputSum outs := by
  induction outs with
  | nil => simp [specVarOutputSum_nil]
  | cons o rest ih =>
    rw [specVarOutputSum_cons]
    have hr := ih (fun x hx hv => h x (List.mem_cons_of_mem o hx) hv)
    by_cases hv : isVAR o.coinType
    · have h0 := (h o (List.mem_cons_self o rest) hv).1
      rw [if_pos hv]
      omega
    · rw [if_neg hv]
      omega

theorem checkTxOutputs_spec (outs : List TxOut) (tv ts : Int)
    (hct : ∀ o ∈ outs, o.coinType < 256)
    (htv0 : 0 ≤ tv) (htvM : tv ≤ MaxVARAtoms) (hts : 0 ≤ ts) :
    checkTxOutputs outs tv ts = .ok () ↔
      ((∀ o ∈ outs, validateCoinTypeFields o = .ok ()) ∧
       (∀ o ∈ outs, isVAR o.coinType → 0 ≤ o.value ∧ o.value ≤ MaxVARAtoms) ∧
       tv + specVarOutputSum outs ≤ MaxVARAtoms ∧
       (∀ o ∈ outs, isSKA o.coinType → 0 ≤ o.skaValue.getD 0)) := by
  induction outs generalizing tv ts with
  | nil =>
    constructor
    · intro _
      refine ⟨by simp, by simp, ?_, by simp⟩
      rw [specVarOutputSum_nil]
      omega
    · intro _
      rfl
  | cons o rest ih =>
    have hct0 : o.coinType < 256 := hct o (List.mem_cons_self o rest)
    have hctr : ∀ x ∈ rest, x.coinType < 256 :=
      fun x hx => hct x (List.mem_cons_of_mem o hx)
    have hmod : o.coinType % 256 = o.coinType := Nat.mod_eq_of_lt hct0
    simp only [checkTxOutputs, hmod]
    by_cases hvo : validateCoinTypeFields o = .ok ()
    case neg =>
      rw [if_pos hvo]
      constructor
      · intro h; cases h
      · rintro ⟨hval, -, -, -⟩
        exact absurd (hval o (List.mem_cons_self o rest)) hvo
    case pos =>
      rw [if_neg (not_not_intro hvo)]
      rcases (validateCoinTypeFields_ok_iff o).mp hvo with
        ⟨hvar, hska⟩ | ⟨hnvar, hzero, v, hv, hv0⟩
      · -- VAR output
        have hvar0 : o.coinType = 0 := by simpa [isVAR] using hvar
        rw [if_pos (by rw [hvar0]; rfl : o.coinType = CoinTypeVAR)]
        by_cases hneg : o.value < 0
        · rw [if_pos hneg]
          constructor
          · intro h; cases h
          · rintro ⟨-, hbnd, -, -⟩
            have := (hbnd o (List.mem_cons_self o rest) hvar).1
            omega
        · rw [if_neg hneg]
          by_cases hbig : o.value > MaxVARAtoms
          · rw [if_pos hbig]
            constructor
            · intro h; cases h
            · rintro ⟨-, hbnd, -, -⟩
              have := (hbnd o (List.mem_cons_self o rest) hvar).2
              omega
          · rw [if_neg hbig]
            have hw : wrap64 (tv + o.value) = tv + o.value := by
              apply wrap64_id
              · unfold MaxVARAtoms at *
                omega
              · unfold MaxVARAtoms at *
                omega
            rw [hw, if_neg (by omega : ¬ tv + o.value < 0)]
            by_cases hover : tv + o.value > MaxVARAtoms
            · rw [if_pos hover]
              constructor
              · intro h; cases h
              · rintro ⟨-, hbnd, hsum, -⟩
                have hrest0 : 0 ≤ specVarOutputSum rest :=
                  specVarOutputSum_nonneg rest
                    (fun x hx hv => hbnd x (List.mem_cons_of_mem o hx) hv)
                rw [specVarOutputSum_cons, if_pos hvar] at hsum
                omega
            · rw [if_neg hover]
              rw [ih (tv + o.value) ts hctr (by omega) (by omega) hts]
              constructor
              · rintro ⟨h1, h2, h3, h4⟩
                refine ⟨?_, ?_, ?_, ?_⟩
                · intro x hx
                  rcases List.mem_cons.mp hx with rfl | hx₂
                  · exact hvo
                  · exact h1 x hx₂
                · intro x hx hvx
                  rcases List.mem_cons.mp hx with rfl | hx₂
                  · omega
                  · exact h2 x hx₂ hvx
                · rw [specVarOutputSum_cons, if_pos hvar]
                  omega
                · intro x hx hvx
                  rcases List.mem_cons.mp hx with rfl | hx₂
                  · rw [isSKA, hvar0] at hvx
                    cases hvx
                  · exact h4 x hx₂ hvx
              · rintro ⟨h1, h2, h3, h4⟩
                refine ⟨fun x hx => h1 x (List.mem_cons_of_mem o hx),
                  fun x hx hvx => h2 x (List.mem_cons_of_mem o hx) hvx, ?_,
                  fun x hx hvx => h4 x (List.mem_cons_of_mem o hx) hvx⟩
                rw [specVarOutputSum_cons, if_pos hvar] at h3
                omega
      · -- SKA output
        have hcn0 : ¬ (o.coinType = 0) := by
          intro h
          simp [isVAR, h] at hnvar
        rw [if_neg (by simpa [CoinTypeVAR] using hcn0 : ¬ o.coinType = CoinTypeVAR)]
        rw [if_neg (by rw [hv, Option.getD_some]; omega : ¬ o.skaValue.getD 0 < 0)]
        rw [show ts + o.skaValue.getD 0 = ts + v by rw [hv, Option.getD_some]]
        rw [if_neg (by omega : ¬ ts + v < 0)]
        rw [ih tv (ts + v) hctr htv0 htvM (by omega)]
        have hskao : isSKA o.coinType := by
          simpa [isSKA] using hcn0
        constructor
        · rintro ⟨h1, h2, h3, h4⟩
          refine ⟨?_, ?_, ?_, ?_⟩
          · intro x hx
            rcases List.mem_cons.mp hx with rfl | hx₂
            · exact hvo
            · exact h1 x hx₂
          · intro x hx hvx
            rcases List.mem_cons.mp hx with rfl | hx₂
            · exact absurd hvx hnvar
            · exact h2 x hx₂ hvx
          · rw [specVarOutputSum_cons, if_neg hnvar]
            omega
          · intro x hx hvx
            rcases List.mem_cons.mp hx with rfl | hx₂
            · rw [hv, Option.getD_some]
              omega
            · exact h4 x hx₂ hvx
        · rintro ⟨h1, h2, h3, h4⟩
          refine ⟨fun x hx => h1 x (List.mem_cons_of_mem o hx),
            fun x hx hvx => h2 x (List.mem_cons_of_mem o hx) hvx, ?_,
            fun x hx hvx => h4 x (List.mem_cons_of_mem o hx) hvx⟩
          rw [specVarOutputSum_cons, if_neg hnvar] at h3
          omega

theorem checkDuplicateTxIn_spec (ins : List TxIn) (seen : List OutPoint) :
    checkDuplicateTxIn ins seen = .ok () ↔
      ((ins.map (fun i => i.previousOutPoint)).Nodup ∧
       ∀ i ∈ ins, i.previousOutPoint ∉ seen) := by
  induction ins generalizing seen with
  | nil => simp [checkDuplicateTxIn]
  | cons i rest ih =>
    simp only [checkDuplicateTxIn]
    by_cases hmem : i.previousOutPoint ∈ seen
    · rw [if_pos hmem]
      constructor
      · intro h; cases h
      · rintro ⟨-, hs⟩
        exact absurd hmem (hs i (List.mem_cons_self i rest))
    · rw [if_neg hmem, ih]
      constructor
      · rintro ⟨hnd, hs⟩
        refine ⟨?_, ?_⟩
        · rw [List.map_cons, List.nodup_cons]
          refine ⟨?_, hnd⟩
          intro hin
          obtain ⟨j, hj, hje⟩ := List.mem_map.mp hin
          have := hs j hj
          rw [hje] at this
          exact this (List.mem_cons_self _ _)
        · intro j hj
          rcases List.mem_cons.mp hj with rfl | hj'
          · exact hmem
          · intro hc
            exact (hs j hj') (List.mem_cons_of_mem _ hc)
      · rintro ⟨hnd, hs⟩
        rw [List.map_cons, List.nodup_cons] at hnd
        refine ⟨hnd.2, ?_⟩
        intro j hj hc
        rcases List.mem_cons.mp hc with hc1 | hc2
        · exact hnd.1 (List.mem_map.mpr ⟨j, hj, hc1⟩)
        · exact (hs j (List.mem_cons_of_mem i hj)) hc2

/-- **C3**: `CheckTransactionSanity` accepts a transaction iff it has at
least one input and one output, its serialized size is within
`maxTxSize`, every output satisfies the coin-type field-discriminator
rule, every VAR output value lies in `[0, MaxVARAtoms]`, the sum of the
VAR output values is at most `MaxVARAtoms` (the running `int64` total
never actually wraps because each addend is bounded by `MaxVARAtoms`),
every SKA output amount is non-negative, and no two inputs share a
previous outpoint; each violated condition produces an error. -/
theorem checkTransactionSanity_spec (tx : MsgTx) (serializedTxSize maxTxSize : Nat)
    (hct : ∀ o ∈ tx.txOut, o.coinType < 256) :
    checkTransactionSanity tx serializedTxSize maxTxSize = .ok () ↔
      (tx.txIn ≠ [] ∧ tx.txOut ≠ [] ∧ serializedTxSize ≤ maxTxSize ∧
       (∀ o ∈ tx.txOut, validateCoinTypeFields o = .ok ()) ∧
       (∀ o ∈ tx.txOut, isVAR o.coinType → 0 ≤ o.value ∧ o.value ≤ MaxVARAtoms) ∧
       specVarOutputSum tx.txOut ≤ MaxVARAtoms ∧
       (∀ o ∈ tx.txOut, isSKA o.coinType → 0 ≤ o.skaValue.getD 0) ∧
       (tx.txIn.map (fun i => i.previousOutPoint)).Nodup) := by
  unfold checkTransactionSanity
  by_cases h1 : tx.txIn.length = 0
  · rw [if_pos h1]
    have h1e : tx.txIn = [] := List.length_eq_zero.mp h1
    constructor
    · intro h; cases h
    · rintro ⟨hne, -⟩
      exact absurd h1e hne
  · rw [if_neg h1]
    by_cases h2 : tx.txOut.length = 0
    · rw [if_pos h2]
      have h2e : tx.txOut = [] := List.length_eq_zero.mp h2
      constructor
      · intro h; cases h
      · rintro ⟨-, hne, -⟩
        exact absurd h2e hne
    · rw [if_neg h2]
      by_cases h3 : serializedTxSize > maxTxSize
      · rw [if_pos h3]
        constructor
        · intro h; cases h
        · rintro ⟨-, -, hsz, -⟩
          omega
      · rw [if_neg h3]
        have houts := checkTxOutputs_spec tx.txOut 0 0 hct (by omega)
          (by unfold MaxVARAtoms; omega) (by omega)
        cases hres : checkTxOutputs tx.txOut 0 0 with
        | error e =>
          rw [hres] at houts
          constructor
          · intro h
            simp at h
          · rintro ⟨-, -, -, hval, hbnd, hsum, hska, -⟩
            have hcontra := houts.mpr ⟨hval, hbnd, by omega, hska⟩
            simp at hcontra
        | ok u =>
          cases u
          rw [hres] at houts
          have hiff := houts.mp rfl
          show checkDuplicateTxIn tx.txIn [] = Except.ok () ↔ _
          rw [checkDuplicateTxIn_spec]
          constructor
          · rintro ⟨hnd, -⟩
            exact ⟨by simpa [List.length_eq_zero] using h1,
              by simpa [List.length_eq_zero] using h2, by omega,
              hiff.1, hiff.2.1, by have := hiff.2.2.1; omega, hiff.2.2.2, hnd⟩
          · rintro ⟨-, -, -, -, -, -, -, hnd⟩
            exact ⟨hnd, by simp⟩

/-- **C3 witness**: `CheckTransactionSanity` applied at a concrete sane
transaction (one input, one VAR output of 3 atoms) and at none of the
error conditions. -/
theorem checkTransactionSanity_spec_witness :
    checkTransactionSanity
        { version := 1
          txIn := [{ previousOutPoint := { hash := zeroHash, index := 0, tree := 0 }
                     sequence := 0, valueIn := 0, skaValueIn := none
                     blockHeight := 0, blockIndex := 0, signatureScript := [] }]
          txOut := [{ value := 3, skaValue := none, coinType := 0, version := 0,
                      pkScript := [] }]
          lockTime := 0, expiry := 0 } 10 100 = .ok () := by
  rw [checkTransactionSanity_spec _ 10 100 (by decide)]
  refine ⟨by decide, by decide, by decide, ?_, ?_, by decide, ?_, by decide⟩
  · decide
  · decide
  · decide

/-! ### C7 — fee-rate estimation bounds -/

theorem clampBounds (mn mx e2 : Int) (hmn0 : 0 ≤ mn) (hmnmx : mn ≤ mx)
    (hz : mn = 0 → e2 = 0) :
    mn ≤ (if (if 0 < mx ∧ mx < e2 then mx else e2) < mn then mn
          else (if 0 < mx ∧ mx < e2 then mx else e2)) ∧
    (if (if 0 < mx ∧ mx < e2 then mx else e2) < mn then mn
     else (if 0 < mx ∧ mx < e2 then mx else e2)) ≤ mx := by
  by_cases hclamp : 0 < mx ∧ mx < e2
  · rw [if_pos hclamp, if_neg (by omega : ¬ mx < mn)]
    omega
  · rw [if_neg hclamp]
    by_cases hlow : e2 < mn
    · rw [if_pos hlow]
      omega
    · rw [if_neg hlow]
      by_cases hmx : 0 < mx
      · constructor
        · omega
        · have : ¬ mx < e2 := fun hc => hclamp ⟨hmx, hc⟩
          omega
      · have hmn : mn = 0 := by omega
        have := hz hmn
        omega

/-- **C7 (amended)**: for every configured coin type whose selected
minimum and maximum rates satisfy `0 ≤ min_relay ≤ max_rate`,
`EstimateFeeRate` returns a rate `r` with `min_relay ≤ r ≤ max_rate` for
every confirmation target.  The restriction is necessary: a configuration
whose `MaxSupply` cap pushes `max_rate` below `min_relay` makes the final
minimum-clamp exceed the maximum (see the counterexample). -/
theorem estimateFeeRate_bounds (fc : CoinTypeFeeCalculator) (ct : Nat) (target : Int)
    (fr : CoinTypeFeeRate) (mn mx : Int)
    (hfr : mapLookup fc.feeRates ct = some fr)
    (hsel : (if isSKA ct ∧ fr.skaMinRelayFee ≠ none then
        (fr.skaMinRelayFee.getD 0, fr.skaMaxFeeRate)
      else (fr.minRelayFee, some fr.maxFeeRate)) = (mn, some mx))
    (hmn0 : 0 ≤ mn) (hmnmx : mn ≤ mx) :
    ∃ r, estimateFeeRate fc ct target = .ok r ∧ mn ≤ r ∧ r ≤ mx := by
  unfold estimateFeeRate
  rw [hfr]
  show ∃ r, Except.ok _ = Except.ok r ∧ _
  rw [hsel]
  cases hst : mapLookup fc.utilizationStats ct with
  | none =>
    refine ⟨_, rfl, ?_⟩
    apply clampBounds mn mx _ hmn0 hmnmx
    intro h0
    subst h0
    split_ifs <;> simp
  | some stats =>
    refine ⟨_, rfl, ?_⟩
    apply clampBounds mn mx _ hmn0 hmnmx
    intro h0
    subst h0
    split_ifs <;> simp

/-- **C7 witness**: the bounds applied to a calculator whose VAR entry has
minimum relay rate 10000 and maximum rate 1000000, at confirmation
target 1. -/
theorem estimateFeeRate_bounds_witness :
    ∃ r, estimateFeeRate c8Calculator 0 1 = .ok r ∧ 10000 ≤ r ∧ r ≤ 1000000 :=
  estimateFeeRate_bounds c8Calculator 0 1 c8VarFeeRate 10000 1000000
    (by decide) (by decide) (by decide) (by decide)

/-- **C7 counterexample**: registering `c7Config` (minimum relay fee 10,
multiplier 1, `MaxSupply = 5`) for coin type 1 via `getDefaultSKAFeeRate`
yields `SKAMinRelayFee = 10 > SKAMaxFeeRate = 5`, and
`EstimateFeeRate(1, 7)` returns 10, violating the claimed upper bound
`r ≤ max_rate`. -/
theorem estimateFeeRate_counterexample :
    (getDefaultSKAFeeRate c7Config).skaMinRelayFee = some 10 ∧
    (getDefaultSKAFeeRate c7Config).skaMaxFeeRate = some 5 ∧
    estimateFeeRate c7Calculator 1 7 = .ok 10 ∧
    ¬ ((10 : Int) ≤ 5) := by
  exact ⟨by decide, by decide, by decide, by decide⟩

/-! ### C8 — unknown coin types in the fee engine -/

/-- **C8 (amended)**: for a coin type with no fee-rate entry,
`CalculateMinFee` falls back to the VAR parameters and returns exactly
the VAR result (given the VAR entry, which never carries SKA fields), but
`EstimateFeeRate` does NOT fall back: it returns an "unsupported coin
type" error. -/
theorem feeCalc_unknownCoinType_spec (fc : CoinTypeFeeCalculator) (size : Int)
    (ct : Nat) (target : Int) (vfr : CoinTypeFeeRate)
    (hNone : mapLookup fc.feeRates ct = none)
    (hVar : mapLookup fc.feeRates CoinTypeVAR = some vfr)
    (hSkaNil : vfr.skaMinRelayFee = none) :
    calculateMinFee fc size ct = calculateMinFee fc size CoinTypeVAR ∧
    estimateFeeRate fc ct target = .error "unsupported coin type" := by
  constructor
  · have hVar0 : mapLookup fc.feeRates 0 = some vfr := hVar
    simp [calculateMinFee, hNone, hVar, hVar0, hSkaNil, isSKA, CoinTypeVAR]
  · simp [estimateFeeRate, hNone]

/-- **C8 witness**: the fallback behavior at a calculator that only knows
VAR, for the unknown coin type 5. -/
theorem feeCalc_unknownCoinType_spec_witness :
    calculateMinFee c8Calculator 250 5 = calculateMinFee c8Calculator 250 CoinTypeVAR ∧
    estimateFeeRate c8Calculator 5 1 = .error "unsupported coin type" :=
  feeCalc_unknownCoinType_spec c8Calculator 250 5 1 c8VarFeeRate
    (by decide) (by decide) (by decide)

/-- **C8 counterexample**: for the unknown coin type 5, `EstimateFeeRate`
returns an error rather than the result `EstimateFeeRate` produces for
coin type VAR, so the claim that both functions fall back to VAR is
false. -/
theorem feeCalc_unknownCoinType_counterexample :
    estimateFeeRate c8Calculator 5 1 ≠ estimateFeeRate c8Calculator 0 1 ∧
    estimateFeeRate c8Calculator 5 1 = .error "unsupported coin type" ∧
    estimateFeeRate c8Calculator 0 1 = .ok 10000 := by
  exact ⟨by decide, by decide, by decide⟩

/-! ### C4 — UTXO V3/V4 format detection -/

/-- **C4 (amended)**: in `deserializeUtxoEntry`, a candidate coin-type VLQ
in 1..255 read after the flags is decoded as a version-4 SKA entry only
when the V4-SKA layout probe succeeds (amount length at most 32, script
version and compressed script in bounds); when the probe fails the entry
falls back to the legacy V3 path and decodes (if at all) with coin type
VAR and no SKA amount.  Probing is therefore not limited to candidate 0 —
every SKA candidate is probed too, and a probe failure on 1..255 does NOT
yield an SKA entry, contrary to the claim. -/
theorem deserializeUtxoEntry_skaDetection
    (codec : CompressCodec) (serialized : List Nat) (txOutIndex : Nat)
    (o1 o2 o3 nx cval flags : Nat)
    (h1 : (deserializeVLQ serialized).2 = o1)
    (hb1 : o1 < serialized.length)
    (h2 : o1 + (deserializeVLQ (serialized.drop o1)).2 = o2)
    (hb2 : o2 < serialized.length)
    (hfl : (deserializeVLQ (serialized.drop o2)).1 = flags)
    (h3 : o2 + (deserializeVLQ (serialized.drop o2)).2 = o3)
    (hb3 : o3 < serialized.length)
    (h4 : (deserializeVLQ (serialized.drop o3)).1 = cval)
    (h5 : o3 + (deserializeVLQ (serialized.drop o3)).2 = nx)
    (hcand : 1 ≤ cval % 256)
    (hnx : nx < serialized.length) :
    (utxoSkaProbe codec serialized nx = true →
      codec.isTicketSubmissionOutput ((flags >>> 2) &&& 15) txOutIndex = false →
      ∃ e, deserializeUtxoEntry codec serialized txOutIndex = .ok e ∧
        e.coinType = cval % 256 ∧ e.skaAmount ≠ none) ∧
    (utxoSkaProbe codec serialized nx = false →
      ∀ e, deserializeUtxoEntry codec serialized txOutIndex = .ok e →
        e.coinType = CoinTypeVAR ∧ e.skaAmount = none) := by
  have hska : isSKA (cval % 256) = true := by
    simp only [isSKA, bne_iff_ne, ne_eq]
    omega
  have hdet : detectUtxoFormat codec serialized o3 nx cval =
      (if utxoSkaProbe codec serialized nx then (cval % 256, nx, true)
       else (CoinTypeVAR, o3, false)) := by
    unfold detectUtxoFormat
    rw [if_pos hnx, if_pos hska]
  constructor
  · intro hprobe hticket
    -- extract the probe conditions
    have hprobe' := hprobe
    unfold utxoSkaProbe at hprobe'
    by_cases hA : (serialized.drop nx).headD 0 ≤ 32
    case neg =>
      rw [if_neg hA] at hprobe'
      cases hprobe'
    rw [if_pos hA] at hprobe'
    by_cases hB : nx + 1 + (serialized.drop nx).headD 0 < serialized.length
    case neg =>
      rw [if_neg hB] at hprobe'
      cases hprobe'
    rw [if_pos hB] at hprobe'
    by_cases hC : 0 < (deserializeVLQ (serialized.drop
          (nx + 1 + (serialized.drop nx).headD 0))).2 ∧
        nx + 1 + (serialized.drop nx).headD 0 + (deserializeVLQ (serialized.drop
          (nx + 1 + (serialized.drop nx).headD 0))).2 ≤ serialized.length
    case neg =>
      rw [if_neg hC] at hprobe'
      cases hprobe'
    rw [if_pos hC] at hprobe'
    have hD := of_decide_eq_true hprobe'
    -- now evaluate the decoder
    simp only [deserializeUtxoEntry]
    rw [h1, if_neg (by omega : ¬ o1 ≥ serialized.length),
      h2, if_neg (by omega : ¬ o2 ≥ serialized.length),
      h3, if_neg (by omega : ¬ o3 ≥ serialized.length),
      h4, h5, hdet, if_pos hprobe]
    simp only
    rw [if_pos (⟨trivial, hska⟩ : (True ∧ isSKA (cval % 256) = true))]
    rw [if_neg (by omega : ¬ nx ≥ serialized.length)]
    rw [if_neg (by omega :
      ¬ nx + 1 + (serialized.drop nx).headD 0 > serialized.length)]
    rw [if_neg (by omega : ¬ (deserializeVLQ (serialized.drop
      (nx + 1 + (serialized.drop nx).headD 0))).2 = 0)]
    rw [if_neg (by omega : ¬ codec.decodeCompressedScriptSize (serialized.drop
      (nx + 1 + (serialized.drop nx).headD 0 + (deserializeVLQ (serialized.drop
        (nx + 1 + (serialized.drop nx).headD 0))).2)) < 0)]
    rw [if_neg (by omega :
      ¬ nx + 1 + (serialized.drop nx).headD 0 + (deserializeVLQ (serialized.drop
          (nx + 1 + (serialized.drop nx).headD 0))).2 +
        (codec.decodeCompressedScriptSize (serialized.drop
          (nx + 1 + (serialized.drop nx).headD 0 + (deserializeVLQ (serialized.drop
            (nx + 1 + (serialized.drop nx).headD 0))).2))).toNat > serialized.length)]
    simp only [hfl]
    rw [if_neg (by simp [hticket])]
    exact ⟨_, rfl, rfl, by simp⟩
  · intro hprobe e he
    simp only [deserializeUtxoEntry] at he
    rw [h1, if_neg (by omega : ¬ o1 ≥ serialized.length),
      h2, if_neg (by omega : ¬ o2 ≥ serialized.length),
      h3, if_neg (by omega : ¬ o3 ≥ serialized.length),
      h4, h5, hdet, hprobe] at he
    simp only [Bool.false_eq_true, if_false] at he
    rw [if_neg (by simp : ¬ (False ∧ isSKA CoinTypeVAR = true))] at he
    cases hdec : codec.decodeCompressedTxOut (serialized.drop o3) with
    | none =>
      rw [hdec] at he
      simp at he
    | some q =>
      obtain ⟨amount, scriptVersion, script, bytesRead⟩ := q
      rw [hdec] at he
      simp only at he
      by_cases htk : codec.isTicketSubmissionOutput
          (((deserializeVLQ (serialized.drop o2)).1 >>> 2) &&& 15) txOutIndex
      · rw [if_pos htk] at he
        cases hmin : codec.readMinimalOutputsSize (serialized.drop (o3 + bytesRead)) with
        | none =>
          rw [hmin] at he
          simp at he
        | some sz =>
          rw [hmin] at he
          simp only [Except.ok.injEq] at he
          rw [← he]
          exact ⟨rfl, rfl⟩
      · rw [if_neg htk] at he
        simp only [Except.ok.injEq] at he
        rw [← he]
        exact ⟨rfl, rfl⟩

/-- **C4 witness**: the amended detection applied at the concrete entry
bytes `[0,0,0, 1, 2, 0xAB,0xCD, 0]` (candidate coin type 1, amount length
2, amount `0xABCD`, script version 0, empty script) with the trivial
codec: the probe succeeds and the entry decodes as SKA-1; and at
`[0,0,0, 1, 33, 9]` (amount length 33 > 32) the probe fails and the entry
decodes with coin type VAR. -/
theorem deserializeUtxoEntry_skaDetection_witness :
    (∃ e, deserializeUtxoEntry c4TrivialCodec [0, 0, 0, 1, 2, 171, 205, 0] 0 = .ok e ∧
      e.coinType = 1 % 256 ∧ e.skaAmount ≠ none) ∧
    (∀ e, deserializeUtxoEntry c4TrivialCodec [0, 0, 0, 1, 33, 9] 0 = .ok e →
      e.coinType = CoinTypeVAR ∧ e.skaAmount = none) :=
  ⟨(deserializeUtxoEntry_skaDetection c4TrivialCodec [0, 0, 0, 1, 2, 171, 205, 0] 0
      1 2 3 4 1 0 (by decide) (by decide) (by decide) (by decide) (by decide)
      (by decide) (by decide) (by decide) (by decide) (by decide) (by decide)).1
    (by decide) (by decide),
   (deserializeUtxoEntry_skaDetection c4TrivialCodec [0, 0, 0, 1, 33, 9] 0
      1 2 3 4 1 0 (by decide) (by decide) (by decide) (by decide) (by decide)
      (by decide) (by decide) (by decide) (by decide) (by decide) (by decide)).2
    (by decide)⟩

/-- **C4 counterexample**: the serialized entry `[0,0,0, 1, 33, 9]` has
candidate coin-type VLQ 1 (in 1..255) after the flags, yet it is NOT
decoded as a version-4 SKA entry: the probe fails (amount length 33 > 32)
and the decoder falls back to V3, producing a VAR entry with no SKA
amount. -/
theorem deserializeUtxoEntry_counterexample :
    (deserializeVLQ (([0, 0, 0, 1, 33, 9] : List Nat).drop 3)).1 = 1 ∧
    (deserializeUtxoEntry c4TrivialCodec [0, 0, 0, 1, 33, 9] 0).toOption.map
      (fun e => (e.coinType, e.skaAmount)) = some (CoinTypeVAR, none) := by
  exact ⟨by decide, by decide⟩

end Monetarium
